import Mathlib

/-!
Shallow embedding of
`staging/src/k8s.io/apiserver/pkg/admission/plugin/validatingadmissionpolicy/controller_reconcile.go`.

The Go `policyController` keeps five pieces of mutable state guarded by one
mutex: the lazily rebuilt `cachedPolicies`, the per-param-kind watch entries
`paramsCRDControllers`, the per-definition records `definitionInfo`, the
per-binding records `bindingInfos`, and the dependency index
`definitionsToBindings`.  We model the state as a structure `PState`, Go maps
as association lists with unique keys (`alookup` / `ainsert` / `aerase`),
`sets.Set` values as duplicate-free lists (`sinsert` / `serase`), and each
reconcile method as a pure state transformer.  A Go nil-pointer dereference
(possible when a binding name listed in the dependency index has no
`bindingInfos` record) is modelled by returning `Option.none` from the whole
operation.  Side effects that escape the state in Go — spawning a dynamic
param controller and cancelling it via `stop()` — are made observable by
allocating a fresh controller id (`nextCtrlId`) for each spawned controller
and recording cancelled ids in `stoppedIds` (the test double for
cancellation that the design document mentions).  External collaborators
(group-version parsing, the RESTMapper, and the CEL compiler) are an
explicit environment `Env`.
-/

/-- Identity key used by all controller maps (Go `namespacedName`,
`getNamespaceName`). -/
structure namespacedName where
  ns : String
  name : String
deriving DecidableEq, Repr

/-- Go `getNamespaceName` (controller_reconcile.go:382). -/
def getNamespaceName (ns name : String) : namespacedName :=
  { ns := ns, name := name }

/-- Go `v1alpha1.ParamKind`: the logical identity of a parameter resource. -/
structure ParamKind where
  apiVersion : String
  kind : String
deriving DecidableEq, Repr

/-- Go `schema.GroupVersion`. -/
structure GroupVersion where
  group : String
  version : String
deriving DecidableEq, Repr

/-- Go `schema.GroupKind`. -/
structure GroupKind where
  group : String
  kind : String
deriving DecidableEq, Repr

/-- Go `schema.GroupVersionResource`, the outcome of RESTMapping; only its
existence matters to the controller. -/
structure GroupVersionResource where
  group : String
  version : String
  resource : String
deriving DecidableEq, Repr

/-- The part of Go `v1alpha1.ValidatingAdmissionPolicySpec` the controller
inspects is `ParamKind`; the rest of the spec (validations and match rules)
is only passed through to the compiler and is modelled as an opaque
`payload`. -/
structure PolicySpec where
  paramKind : Option ParamKind
  payload : Nat
deriving DecidableEq, Repr

/-- Go `v1alpha1.ValidatingAdmissionPolicy`. -/
structure ValidatingAdmissionPolicy where
  spec : PolicySpec
deriving DecidableEq, Repr

/-- The part of Go `v1alpha1.ValidatingAdmissionPolicyBindingSpec` the
controller inspects is `PolicyName`; the rest (param ref, match resources)
is opaque `payload`. -/
structure BindingSpec where
  policyName : String
  payload : Nat
deriving DecidableEq, Repr

/-- Go `v1alpha1.ValidatingAdmissionPolicyBinding`. -/
structure ValidatingAdmissionPolicyBinding where
  spec : BindingSpec
deriving DecidableEq, Repr

/-- The product of `ValidatorCompiler.Compile`; the controller never inspects
it, so it is opaque. -/
structure Validator where
  code : Nat
deriving DecidableEq, Repr

/-- Errors produced by `reconcilePolicyDefinition` (the two `fmt.Errorf`
sites at controller_reconcile.go:213 and :228). -/
inductive GoError where
  | parseParamKind (pk : ParamKind) (inner : String)
  | findResource (gv : GroupVersion) (kind : String)
deriving DecidableEq, Repr

/-- Go `definitionInfo` record (fields as used by controller_reconcile.go):
last reconciled policy value and the recorded configuration error. -/
structure DefinitionInfo where
  configurationError : Option GoError
  lastReconciledValue : Option ValidatingAdmissionPolicy
deriving DecidableEq, Repr

/-- Go `bindingInfo` record: compiled validator slot and last reconciled
binding value. -/
structure BindingInfo where
  validator : Option Validator
  lastReconciledValue : Option ValidatingAdmissionPolicyBinding
deriving DecidableEq, Repr

/-- Go `paramInfo`: the dynamically spawned controller (modelled by its
allocated id), its cancel function (modelled by recording the id into
`stoppedIds` when called), and the dependent definitions set. -/
structure ParamInfo where
  ctrlId : Nat
  dependentDefinitions : List namespacedName
deriving DecidableEq, Repr

/-- Go `policyData` as assembled by `latestPolicyData`
(controller_reconcile.go:371): a copy of the definition record, the current
param controller (by id) if any, and copies of the dependent binding
records. -/
structure PolicyData where
  definitionInfo : DefinitionInfo
  paramController : Option Nat
  bindings : List BindingInfo
deriving DecidableEq, Repr

/-- One invocation of `ValidatorCompiler.Compile` during a cache rebuild,
recording which definition/binding pair triggered it and the argument
passed (controller_reconcile.go:359). -/
structure CompileCall where
  definitionName : namespacedName
  bindingName : namespacedName
  arg : Option ValidatingAdmissionPolicy
deriving DecidableEq, Repr

/-- External collaborators injected into the controller: `ParseGroupVersion`
(apimachinery), `RESTMapper.RESTMapping`, and `ValidatorCompiler.Compile`. -/
structure Env where
  parseGroupVersion : String → Except String GroupVersion
  restMapping : GroupKind → String → Except String GroupVersionResource
  compile : Option ValidatingAdmissionPolicy → Validator

/-! ### Go map and set operations

Go maps are modelled as association lists whose keys are unique; `ainsert`
replaces the entry when the key is present and appends otherwise, `aerase`
removes the entry.  Go `sets.Set` values are duplicate-free lists. -/

/-- Go map read `m[k]` with comma-ok. -/
def alookup {κ ν : Type} [DecidableEq κ] : List (κ × ν) → κ → Option ν
  | [], _ => none
  | (k, v) :: rest, key => if k = key then some v else alookup rest key

/-- Go map write `m[k] = v`. -/
def ainsert {κ ν : Type} [DecidableEq κ] : List (κ × ν) → κ → ν → List (κ × ν)
  | [], key, val => [(key, val)]
  | (k, v) :: rest, key, val =>
    if k = key then (key, val) :: rest else (k, v) :: ainsert rest key val

/-- Go map delete `delete(m, k)`. -/
def aerase {κ ν : Type} [DecidableEq κ] : List (κ × ν) → κ → List (κ × ν)
  | [], _ => []
  | (k, v) :: rest, key => if k = key then rest else (k, v) :: aerase rest key

/-- Go `sets.Set.Insert`. -/
def sinsert {α : Type} [DecidableEq α] (l : List α) (a : α) : List α :=
  if a ∈ l then l else l ++ [a]

/-- Go `sets.Set.Delete`. -/
def serase {α : Type} [DecidableEq α] : List α → α → List α
  | [], _ => []
  | x :: rest, a => if x = a then rest else x :: serase rest a

/-- The mutable state of Go `policyController` (the five fields guarded by
`mutex`), plus the two instrumentation fields `nextCtrlId` / `stoppedIds`
that make controller spawning and cancellation observable. -/
structure PState where
  cachedPolicies : Option (List PolicyData)
  paramsCRDControllers : List (ParamKind × ParamInfo)
  definitionInfo : List (namespacedName × DefinitionInfo)
  bindingInfos : List (namespacedName × BindingInfo)
  definitionsToBindings : List (namespacedName × List namespacedName)
  nextCtrlId : Nat
  stoppedIds : List Nat
deriving DecidableEq, Repr

/-- The state produced by `newPolicyController`: all maps empty, no cache. -/
def emptyPState : PState :=
  { cachedPolicies := none
    paramsCRDControllers := []
    definitionInfo := []
    bindingInfos := []
    definitionsToBindings := []
    nextCtrlId := 0
    stoppedIds := [] }

/-- Fetch-or-create of the definition record
(controller_reconcile.go:151-157); returns the record that the Go pointer
`info` refers to together with the updated state. -/
def ensureDefinitionRecord (s : PState) (nn : namespacedName) :
    DefinitionInfo × PState :=
  match alookup s.definitionInfo nn with
  | some info => (info, s)
  | none =>
    let info : DefinitionInfo :=
      { configurationError := none, lastReconciledValue := none }
    (info, { s with definitionInfo := ainsert s.definitionInfo nn info })

/-- Fetch-or-create of the binding record
(controller_reconcile.go:278-282). -/
def ensureBindingRecord (s : PState) (nn : namespacedName) :
    BindingInfo × PState :=
  match alookup s.bindingInfos nn with
  | some info => (info, s)
  | none =>
    let info : BindingInfo := { validator := none, lastReconciledValue := none }
    (info, { s with bindingInfos := ainsert s.bindingInfos nn info })

/-- Param-source change handling (controller_reconcile.go:164-182): if the
definition previously declared a param kind and the new param source
differs, drop `nn` from the old kind's dependents; when the dependents
become empty, call `stop()` (recorded in `stoppedIds`) and delete the
entry. -/
def dropOldParamDependency (s : PState) (nn : namespacedName)
    (info : DefinitionInfo) (paramSource : Option ParamKind) : PState :=
  match info.lastReconciledValue with
  | none => s
  | some lastVal =>
    match lastVal.spec.paramKind with
    | none => s
    | some oldParamSource =>
      if paramSource = some oldParamSource then s
      else
        match alookup s.paramsCRDControllers oldParamSource with
        | none => s
        | some oldParamInfo =>
          let deps := serase oldParamInfo.dependentDefinitions nn
          if deps.length = 0 then
            { s with
                paramsCRDControllers := aerase s.paramsCRDControllers oldParamSource
                stoppedIds := s.stoppedIds ++ [oldParamInfo.ctrlId] }
          else
            { s with
                paramsCRDControllers :=
                  ainsert s.paramsCRDControllers oldParamSource
                    { oldParamInfo with dependentDefinitions := deps } }

/-- Validator invalidation loop (controller_reconcile.go:186-190): for each
dependent binding key, clear its compiled validator.  In Go,
`c.bindingInfos[key]` on a missing key yields a nil pointer and the
subsequent field write panics; that outcome is `none`. -/
def invalidateDeps (s : PState) : List namespacedName → Option PState
  | [] => some s
  | key :: rest =>
    match alookup s.bindingInfos key with
    | none => none
    | some bindingInfo =>
      invalidateDeps
        { s with
            bindingInfos :=
              ainsert s.bindingInfos key { bindingInfo with validator := none } }
        rest

/-- Tail of `reconcilePolicyDefinition` after the invalidation loop
(controller_reconcile.go:192-265): deletion, record update, param source
parsing and resolution, and watch-entry creation. -/
def definitionFinish (env : Env) (s : PState) (nn : namespacedName)
    (info : DefinitionInfo) (definition : Option ValidatingAdmissionPolicy)
    (paramSource : Option ParamKind) : PState × Option GoError :=
  match definition with
  | none => ({ s with definitionInfo := aerase s.definitionInfo nn }, none)
  | some definition =>
    let info :=
      { info with lastReconciledValue := some definition, configurationError := none }
    let s := { s with definitionInfo := ainsert s.definitionInfo nn info }
    match paramSource with
    | none => (s, none)
    | some paramSource =>
      match env.parseGroupVersion paramSource.apiVersion with
      | .error e =>
        let info :=
          { info with configurationError := some (.parseParamKind paramSource e) }
        ({ s with definitionInfo := ainsert s.definitionInfo nn info }, none)
      | .ok paramSourceGV =>
        match env.restMapping
            { group := paramSourceGV.group, kind := paramSource.kind }
            paramSourceGV.version with
        | .error _ =>
          let err := GoError.findResource paramSourceGV paramSource.kind
          let info := { info with configurationError := some err }
          ({ s with definitionInfo := ainsert s.definitionInfo nn info }, some err)
        | .ok _ =>
          match alookup s.paramsCRDControllers paramSource with
          | some _ => (s, none)
          | none =>
            ({ s with
                paramsCRDControllers :=
                  ainsert s.paramsCRDControllers paramSource
                    { ctrlId := s.nextCtrlId, dependentDefinitions := [nn] }
                nextCtrlId := s.nextCtrlId + 1 }, none)

/-- The new param source (controller_reconcile.go:159-162): the declared
paramKind when the definition is non-null, else null. -/
def paramSourceOf (definition : Option ValidatingAdmissionPolicy) : Option ParamKind :=
  match definition with
  | some d => d.spec.paramKind
  | none => none

/-- Go `policyController.reconcilePolicyDefinition`
(controller_reconcile.go:143-266).  Returns `none` when Go would panic
(a dependent binding listed in the index has no record), otherwise the new
state and the reconcile error. -/
def reconcilePolicyDefinition (env : Env) (s : PState) (ns name : String)
    (definition : Option ValidatingAdmissionPolicy) :
    Option (PState × Option GoError) :=
  let nn := getNamespaceName ns name
  let (info, s) := ensureDefinitionRecord { s with cachedPolicies := none } nn
  let paramSource : Option ParamKind := paramSourceOf definition
  let s := dropOldParamDependency s nn info paramSource
  match invalidateDeps s ((alookup s.definitionsToBindings nn).getD []) with
  | none => none
  | some s => some (definitionFinish env s nn info definition paramSource)

/-- Dependency-index removal block (controller_reconcile.go:298-308):
delete `member` from `key`'s set, dropping the key when the set becomes
empty.  A missing key is left alone. -/
def indexRemove (idx : List (namespacedName × List namespacedName))
    (key member : namespacedName) : List (namespacedName × List namespacedName) :=
  match alookup idx key with
  | none => idx
  | some dependentBindings =>
    let dependentBindings := serase dependentBindings member
    if dependentBindings.length = 0 then aerase idx key
    else ainsert idx key dependentBindings

/-- Dependency-index insertion block (controller_reconcile.go:316-320):
add `member` to `key`'s set, creating the set when absent. -/
def indexAdd (idx : List (namespacedName × List namespacedName))
    (key member : namespacedName) : List (namespacedName × List namespacedName) :=
  match alookup idx key with
  | none => ainsert idx key [member]
  | some dependentBindings => ainsert idx key (sinsert dependentBindings member)

/-- Go `policyController.reconcilePolicyBinding`
(controller_reconcile.go:268-326). -/
def reconcilePolicyBinding (s : PState) (ns name : String)
    (binding : Option ValidatingAdmissionPolicyBinding) :
    PState × Option GoError :=
  let nn := getNamespaceName ns name
  let (info, s) := ensureBindingRecord { s with cachedPolicies := none } nn
  let oldNamespacedDefinitionName : namespacedName :=
    match info.lastReconciledValue with
    | some lastVal => getNamespaceName "" lastVal.spec.policyName
    | none => { ns := "", name := "" }
  let namespacedDefinitionName : namespacedName :=
    match binding with
    | some b => getNamespaceName "" b.spec.policyName
    | none => { ns := "", name := "" }
  let s :=
    if oldNamespacedDefinitionName ≠ namespacedDefinitionName then
      { s with
          definitionsToBindings :=
            indexRemove s.definitionsToBindings oldNamespacedDefinitionName nn }
    else s
  match binding with
  | none => ({ s with bindingInfos := aerase s.bindingInfos nn }, none)
  | some binding =>
    let s :=
      { s with
          definitionsToBindings :=
            indexAdd s.definitionsToBindings namespacedDefinitionName nn }
    ({ s with
        bindingInfos :=
          ainsert s.bindingInfos nn
            { validator := none, lastReconciledValue := some binding } }, none)

/-- Inner rebuild loop over one definition's dependent bindings
(controller_reconcile.go:356-362): look up each record (a missing record is
a Go nil dereference, `none`), compile when the validator slot is empty and
the definition has no configuration error (memoizing the result into the
record), and collect a copy of the record. -/
def buildBindings (env : Env) (definitionNN : namespacedName)
    (dInfo : DefinitionInfo) :
    PState → List namespacedName →
    Option (List BindingInfo × PState × List CompileCall)
  | s, [] => some ([], s, [])
  | s, bindingNN :: rest =>
    match alookup s.bindingInfos bindingNN with
    | none => none
    | some bindingInfo =>
      let step : BindingInfo × PState × List CompileCall :=
        if bindingInfo.validator.isNone && dInfo.configurationError.isNone then
          let compiled := env.compile dInfo.lastReconciledValue
          let bindingInfo := { bindingInfo with validator := some compiled }
          (bindingInfo,
           { s with bindingInfos := ainsert s.bindingInfos bindingNN bindingInfo },
           [{ definitionName := definitionNN, bindingName := bindingNN,
              arg := dInfo.lastReconciledValue }])
        else (bindingInfo, s, [])
      match buildBindings env definitionNN dInfo step.2.1 rest with
      | none => none
      | some (out, s2, calls2) => some (step.1 :: out, s2, step.2.2 ++ calls2)

/-- Outer rebuild loop over the definition records
(controller_reconcile.go:354-376): assemble one `PolicyData` per known
definition.  Reading `lastReconciledValue.Spec` on a nil value would be a
Go nil dereference (`none`). -/
def buildPolicyData (env : Env) :
    PState → List (namespacedName × DefinitionInfo) →
    Option (List PolicyData × PState × List CompileCall)
  | s, [] => some ([], s, [])
  | s, (definitionNN, dInfo) :: rest =>
    match buildBindings env definitionNN dInfo s
        ((alookup s.definitionsToBindings definitionNN).getD []) with
    | none => none
    | some (bindingInfosOut, s, calls) =>
      match dInfo.lastReconciledValue with
      | none => none
      | some lastVal =>
        let paramController : Option Nat :=
          match lastVal.spec.paramKind with
          | none => none
          | some paramKind =>
            match alookup s.paramsCRDControllers paramKind with
            | some pInfo => some pInfo.ctrlId
            | none => none
        match buildPolicyData env s rest with
        | none => none
        | some (res, s2, calls2) =>
          some ({ definitionInfo := dInfo, paramController := paramController,
                  bindings := bindingInfosOut } :: res,
                s2, calls ++ calls2)

/-- Go `policyController.latestPolicyData`
(controller_reconcile.go:338-380).  A Go nil slice is `none`, so the cache
is only considered published when the rebuilt list is non-empty, exactly
as `existing != nil` behaves. -/
def latestPolicyData (env : Env) (s : PState) :
    Option (List PolicyData × PState × List CompileCall) :=
  match s.cachedPolicies with
  | some existing => some (existing, s, [])
  | none =>
    match buildPolicyData env s s.definitionInfo with
    | none => none
    | some (res, s2, calls) =>
      some (res,
            { s2 with cachedPolicies := if res.isEmpty then none else some res },
            calls)

/-! ### Well-formedness of the Go maps

Any state representable by Go maps and `sets.Set` values has unique map
keys and duplicate-free sets; theorems about arbitrary states assume the
relevant part of this. -/

/-- Number of entries of an association list carrying a given key. -/
def akeyCount {κ ν : Type} [DecidableEq κ] (l : List (κ × ν)) (k : κ) : Nat :=
  l.countP (fun e => decide (e.1 = k))

/-- Unique keys and duplicate-free sets, true of every Go-representable
state. -/
def MapsWF (s : PState) : Prop :=
  (s.paramsCRDControllers.map Prod.fst).Nodup ∧
  (s.definitionInfo.map Prod.fst).Nodup ∧
  (s.bindingInfos.map Prod.fst).Nodup ∧
  (s.definitionsToBindings.map Prod.fst).Nodup ∧
  (∀ e ∈ s.definitionsToBindings, e.2.Nodup) ∧
  (∀ e ∈ s.paramsCRDControllers, e.2.dependentDefinitions.Nodup)

/-! ### Concrete collaborators and scenario states used in closed theorems -/

/-- Collaborators where parsing and resource resolution always succeed. -/
def env0 : Env :=
  { parseGroupVersion := fun str => .ok { group := "", version := str }
    restMapping := fun _ _ => .ok { group := "", version := "v1", resource := "configmaps" }
    compile := fun _ => { code := 7 } }

/-- Collaborators where group-version parsing fails. -/
def envParseFail : Env :=
  { env0 with parseGroupVersion := fun _ => .error "unexpected GroupVersion string" }

/-- Collaborators where parsing succeeds but RESTMapping fails. -/
def envMapFail : Env :=
  { env0 with restMapping := fun _ _ => .error "no matches for kind" }

/-- The param kind of the spec's worked example. -/
def pkK : ParamKind := { apiVersion := "v1", kind := "ConfigMap" }

/-- A policy definition declaring param kind `pkK`. -/
def defA : ValidatingAdmissionPolicy := { spec := { paramKind := some pkK, payload := 0 } }

/-- A second, distinct policy definition declaring the same param kind. -/
def defB : ValidatingAdmissionPolicy := { spec := { paramKind := some pkK, payload := 1 } }

/-- A policy definition declaring no param kind. -/
def defPlain : ValidatingAdmissionPolicy := { spec := { paramKind := none, payload := 2 } }

/-- A binding whose `PolicyName` is the empty string. -/
def bindEmptyName : ValidatingAdmissionPolicyBinding :=
  { spec := { policyName := "", payload := 0 } }

/-- A binding targeting definition `policy-A`. -/
def bindToA : ValidatingAdmissionPolicyBinding :=
  { spec := { policyName := "policy-A", payload := 0 } }

/-- Extract the state from a definition reconcile known to succeed. -/
def runDef (env : Env) (s : PState) (ns name : String)
    (d : Option ValidatingAdmissionPolicy) : PState :=
  ((reconcilePolicyDefinition env s ns name d).getD (emptyPState, none)).1

/-- Extract the state from a binding reconcile. -/
def runBind (s : PState) (ns name : String)
    (b : Option ValidatingAdmissionPolicyBinding) : PState :=
  (reconcilePolicyBinding s ns name b).1

/-- State after reconciling `def1` declaring `pkK`. -/
def c1s1 : PState := runDef env0 emptyPState "" "def1" (some defA)

/-- State after additionally reconciling `def2` declaring `pkK`. -/
def c1s2 : PState := runDef env0 c1s1 "" "def2" (some defB)

/-- State after additionally deleting `def1`. -/
def c1s3 : PState := runDef env0 c1s2 "" "def1" none

/-- State after reconciling binding `b1` whose `PolicyName` is empty. -/
def c2s1 : PState := runBind emptyPState "" "b1" (some bindEmptyName)

/-- State after additionally deleting binding `b1`. -/
def c2s2 : PState := runBind c2s1 "" "b1" none

/-- A binding targeting definition `policy-E`. -/
def bindToE : ValidatingAdmissionPolicyBinding :=
  { spec := { policyName := "policy-E", payload := 1 } }

/-- State after reconciling `policy-A` (no param kind). -/
def c10s1 : PState := runDef env0 emptyPState "" "policy-A" (some defPlain)

/-- State after additionally reconciling `binding-1` targeting `policy-A`. -/
def c10s2 : PState := runBind c10s1 "" "binding-1" (some bindToA)

/-- State after a cache rebuild compiled `binding-1`'s validator. -/
def c10s3 : PState := ((latestPolicyData env0 c10s2).getD ([], emptyPState, [])).2.1

/-- State after additionally deleting `policy-A`. -/
def c10s4 : PState := runDef env0 c10s3 "" "policy-A" none

/-- State after reconciling `policy-A` declaring `pkK` (a watch entry is
created with `policy-A` as sole dependent). -/
def c9s1 : PState := runDef env0 emptyPState "" "policy-A" (some defA)

/-- State with a broken definition `policy-E` (RESTMapping failed), a healthy
definition `policy-A`, and one binding targeting each. -/
def c3s : PState :=
  runBind
    (runBind
      (runDef env0 (runDef envMapFail emptyPState "" "policy-E" (some defA)) ""
        "policy-A" (some defPlain))
      "" "binding-1" (some bindToA))
    "" "binding-2" (some bindToE)

/-- Whether a rebuild visit would compile a binding: its record exists with
an absent validator and the definition has no configuration error (the
test at controller_reconcile.go:358). -/
def needsCompile (s : PState) (di : DefinitionInfo) (b : namespacedName) : Bool :=
  (match alookup s.bindingInfos b with
   | some bi => bi.validator.isNone
   | none => false) && di.configurationError.isNone

/-- Every binding identity listed in the dependency index has a binding
record (the invariant stated at controller_reconcile.go:75). -/
def recordsComplete (s : PState) : Prop :=
  ∀ e ∈ s.definitionsToBindings, ∀ b ∈ e.2, (alookup s.bindingInfos b).isSome

/-- Dependent-binding sets of distinct dependency-index entries do not
share binding identities. -/
def depsDisjoint (s : PState) : Prop :=
  ∀ e1 ∈ s.definitionsToBindings, ∀ e2 ∈ s.definitionsToBindings,
    e1.1 ≠ e2.1 → ∀ b ∈ e1.2, b ∉ e2.2

/-! ### Lemmas about the map and set operations -/

theorem alookup_ainsert_self {κ ν : Type} [DecidableEq κ]
    (l : List (κ × ν)) (k : κ) (v : ν) : alookup (ainsert l k v) k = some v := by
  induction l with
  | nil => simp [ainsert, alookup]
  | cons e rest ih =>
    by_cases h : e.1 = k
    · simp [ainsert, h, alookup]
    · simpa [ainsert, h, alookup] using ih

theorem alookup_ainsert_ne {κ ν : Type} [DecidableEq κ]
    (l : List (κ × ν)) (k k' : κ) (v : ν) (h : k' ≠ k) :
    alookup (ainsert l k v) k' = alookup l k' := by
  have hkk : k ≠ k' := fun hc => h hc.symm
  induction l with
  | nil => simp [ainsert, alookup, hkk]
  | cons e rest ih =>
    rcases e with ⟨ek, ev⟩
    by_cases he : ek = k
    · subst he
      simp [ainsert, alookup, hkk]
    · by_cases he' : ek = k'
      · subst he'
        rw [ainsert, if_neg he]
        simp [alookup]
      · simpa [ainsert, he, alookup, he'] using ih

theorem alookup_aerase_ne {κ ν : Type} [DecidableEq κ]
    (l : List (κ × ν)) (k k' : κ) (h : k' ≠ k) :
    alookup (aerase l k) k' = alookup l k' := by
  induction l with
  | nil => simp [aerase]
  | cons e rest ih =>
    rcases e with ⟨ek, ev⟩
    by_cases he : ek = k
    · subst he
      have : ek ≠ k' := fun hc => h hc.symm
      simp [aerase, alookup, this]
    · by_cases he' : ek = k'
      · subst he'
        rw [aerase, if_neg he]
        simp [alookup]
      · simpa [aerase, he, alookup, he'] using ih

theorem alookup_eq_none_of_forall {κ ν : Type} [DecidableEq κ]
    {l : List (κ × ν)} {k : κ} (h : ∀ e ∈ l, e.1 ≠ k) : alookup l k = none := by
  induction l with
  | nil => rfl
  | cons e rest ih =>
    rcases e with ⟨ek, ev⟩
    have hek : ek ≠ k := h (ek, ev) (by simp)
    simp only [alookup, if_neg hek]
    exact ih fun e he => h e (List.mem_cons_of_mem _ he)

theorem alookup_aerase_self {κ ν : Type} [DecidableEq κ]
    (l : List (κ × ν)) (k : κ) (h : (l.map Prod.fst).Nodup) :
    alookup (aerase l k) k = none := by
  induction l with
  | nil => rfl
  | cons e rest ih =>
    rcases e with ⟨ek, ev⟩
    simp only [List.map_cons, List.nodup_cons] at h
    by_cases he : ek = k
    · subst he
      simp only [aerase, if_pos rfl]
      refine alookup_eq_none_of_forall fun f hf hc => ?_
      exact h.1 (hc ▸ List.mem_map_of_mem Prod.fst hf)
    · simpa [aerase, he, alookup, he] using ih h.2

theorem alookup_eq_some_mem {κ ν : Type} [DecidableEq κ]
    {l : List (κ × ν)} {k : κ} {v : ν} (h : alookup l k = some v) : (k, v) ∈ l := by
  induction l with
  | nil => simp [alookup] at h
  | cons e rest ih =>
    rcases e with ⟨ek, ev⟩
    by_cases he : ek = k
    · subst he
      have hv : ev = v := by simpa [alookup] using h
      subst hv
      exact List.mem_cons_self _ _
    · simp only [alookup, he, if_false] at h
      exact List.mem_cons_of_mem _ (ih h)

theorem alookup_eq_none_not_mem {κ ν : Type} [DecidableEq κ]
    {l : List (κ × ν)} {k : κ} (h : alookup l k = none) :
    k ∉ l.map Prod.fst := by
  induction l with
  | nil => simp
  | cons e rest ih =>
    by_cases he : e.1 = k
    · simp [alookup, he] at h
    · simp only [alookup, he, if_false] at h
      simp only [List.map_cons, List.mem_cons]
      rintro (hc | hc)
      · exact he hc.symm
      · exact ih h hc

theorem mem_sinsert_self {α : Type} [DecidableEq α] (l : List α) (a : α) :
    a ∈ sinsert l a := by
  by_cases h : a ∈ l <;> simp [sinsert, h]

theorem mem_serase {α : Type} [DecidableEq α] {l : List α} {a b : α}
    (h : b ∈ serase l a) : b ∈ l := by
  induction l with
  | nil => simp [serase] at h
  | cons x rest ih =>
    by_cases hx : x = a
    · simp only [serase, hx, if_true] at h
      exact List.mem_cons_of_mem _ h
    · simp only [serase, hx, if_false, List.mem_cons] at h ⊢
      rcases h with h | h
      · exact Or.inl h
      · exact Or.inr (ih h)

theorem not_mem_serase_self {α : Type} [DecidableEq α] {l : List α} {a : α}
    (h : l.Nodup) : a ∉ serase l a := by
  induction l with
  | nil => simp [serase]
  | cons x rest ih =>
    rcases List.nodup_cons.mp h with ⟨hx, hrest⟩
    by_cases hxa : x = a
    · simp only [serase, hxa, if_true]
      exact fun hc => hx (hxa ▸ hc)
    · simp only [serase, hxa, if_false, List.mem_cons]
      rintro (hc | hc)
      · exact hxa hc.symm
      · exact ih hrest hc

/-! ### Characterization of the invalidation loop -/

/-- `invalidateDeps` only touches `bindingInfos`. -/
theorem invalidateDeps_frame {s s' : PState} {l : List namespacedName}
    (h : invalidateDeps s l = some s') :
    s'.cachedPolicies = s.cachedPolicies ∧
    s'.paramsCRDControllers = s.paramsCRDControllers ∧
    s'.definitionInfo = s.definitionInfo ∧
    s'.definitionsToBindings = s.definitionsToBindings ∧
    s'.nextCtrlId = s.nextCtrlId ∧
    s'.stoppedIds = s.stoppedIds := by
  induction l generalizing s with
  | nil =>
    simp only [invalidateDeps, Option.some.injEq] at h
    subst h
    exact ⟨rfl, rfl, rfl, rfl, rfl, rfl⟩
  | cons key rest ih =>
    cases hk : alookup s.bindingInfos key with
    | none => simp [invalidateDeps, hk] at h
    | some bi =>
      simp only [invalidateDeps, hk] at h
      have hrec := ih h
      exact hrec

/-- `invalidateDeps` succeeds exactly when every listed key has a record. -/
theorem invalidateDeps_isSome {s : PState} {l : List namespacedName}
    (h : ∀ b ∈ l, (alookup s.bindingInfos b).isSome) :
    (invalidateDeps s l).isSome := by
  induction l generalizing s with
  | nil => simp [invalidateDeps]
  | cons key rest ih =>
    have hk := h key (by simp)
    cases hkl : alookup s.bindingInfos key with
    | none => rw [hkl] at hk; simp at hk
    | some bi =>
      simp only [invalidateDeps, hkl]
      refine ih fun b hb => ?_
      by_cases hbk : b = key
      · subst hbk
        simp [alookup_ainsert_self]
      · simp only [alookup_ainsert_ne _ _ _ _ hbk]
        exact h b (List.mem_cons_of_mem _ hb)

/-- Pointwise effect of `invalidateDeps` on the binding records: keys in the
list get their validator cleared, all other records are untouched. -/
theorem invalidateDeps_lookup {s s' : PState} {l : List namespacedName}
    (h : invalidateDeps s l = some s') (b : namespacedName) :
    alookup s'.bindingInfos b =
      if b ∈ l then
        (alookup s.bindingInfos b).map (fun bi => { bi with validator := none })
      else alookup s.bindingInfos b := by
  induction l generalizing s with
  | nil =>
    simp only [invalidateDeps, Option.some.injEq] at h
    subst h
    simp
  | cons key rest ih =>
    cases hk : alookup s.bindingInfos key with
    | none => simp [invalidateDeps, hk] at h
    | some bi =>
      simp only [invalidateDeps, hk] at h
      have step := ih h
      by_cases hbrest : b ∈ rest
      · rw [step]
        simp only [hbrest, if_true, List.mem_cons, hbrest, or_true, if_true]
        by_cases hbk : b = key
        · subst hbk
          simp [alookup_ainsert_self, hk]
        · simp [alookup_ainsert_ne _ _ _ _ hbk]
      · rw [step]
        simp only [hbrest, if_false]
        by_cases hbk : b = key
        · subst hbk
          simp [alookup_ainsert_self, hk]
        · simp [alookup_ainsert_ne _ _ _ _ hbk, List.mem_cons, hbk, hbrest]

/-! ### Characterization of the reconcile phases -/

theorem ensureDefinitionRecord_some {s : PState} {nn : namespacedName}
    {info : DefinitionInfo} (h : alookup s.definitionInfo nn = some info) :
    ensureDefinitionRecord s nn = (info, s) := by
  simp [ensureDefinitionRecord, h]

theorem ensureDefinitionRecord_none {s : PState} {nn : namespacedName}
    (h : alookup s.definitionInfo nn = none) :
    ensureDefinitionRecord s nn =
      ({ configurationError := none, lastReconciledValue := none },
       { s with
           definitionInfo :=
             ainsert s.definitionInfo nn
               { configurationError := none, lastReconciledValue := none } }) := by
  simp [ensureDefinitionRecord, h]

theorem ensureBindingRecord_some {s : PState} {nn : namespacedName}
    {info : BindingInfo} (h : alookup s.bindingInfos nn = some info) :
    ensureBindingRecord s nn = (info, s) := by
  simp [ensureBindingRecord, h]

theorem ensureBindingRecord_none {s : PState} {nn : namespacedName}
    (h : alookup s.bindingInfos nn = none) :
    ensureBindingRecord s nn =
      ({ validator := none, lastReconciledValue := none },
       { s with
           bindingInfos :=
             ainsert s.bindingInfos nn
               { validator := none, lastReconciledValue := none } }) := by
  simp [ensureBindingRecord, h]

/-- `dropOldParamDependency` only touches the watch entries and the stop
log. -/
theorem dropOldParamDependency_frame (s : PState) (nn : namespacedName)
    (info : DefinitionInfo) (ps : Option ParamKind) :
    (dropOldParamDependency s nn info ps).cachedPolicies = s.cachedPolicies ∧
    (dropOldParamDependency s nn info ps).definitionInfo = s.definitionInfo ∧
    (dropOldParamDependency s nn info ps).bindingInfos = s.bindingInfos ∧
    (dropOldParamDependency s nn info ps).definitionsToBindings = s.definitionsToBindings ∧
    (dropOldParamDependency s nn info ps).nextCtrlId = s.nextCtrlId := by
  unfold dropOldParamDependency
  repeat' split
  all_goals try dsimp only
  all_goals try split_ifs
  all_goals simp

theorem dropOldParamDependency_of_no_last {s : PState} {nn : namespacedName}
    {info : DefinitionInfo} {ps : Option ParamKind}
    (h : info.lastReconciledValue = none) :
    dropOldParamDependency s nn info ps = s := by
  simp [dropOldParamDependency, h]

theorem dropOldParamDependency_of_same {s : PState} {nn : namespacedName}
    {info : DefinitionInfo} {lv : ValidatingAdmissionPolicy} {K : ParamKind}
    (hlv : info.lastReconciledValue = some lv)
    (hpk : lv.spec.paramKind = some K) :
    dropOldParamDependency s nn info (some K) = s := by
  simp [dropOldParamDependency, hlv, hpk]

/-- When the old param kind differs from the new param source and has a
watch entry, `dropOldParamDependency` removes `nn` from its dependents and
erases (stopping the controller) or updates the entry. -/
theorem dropOldParamDependency_removes {s : PState} {nn : namespacedName}
    {info : DefinitionInfo} {ps : Option ParamKind}
    {lv : ValidatingAdmissionPolicy} {K : ParamKind} {pinfo : ParamInfo}
    (hlv : info.lastReconciledValue = some lv)
    (hpk : lv.spec.paramKind = some K)
    (hps : ps ≠ some K)
    (hop : alookup s.paramsCRDControllers K = some pinfo) :
    dropOldParamDependency s nn info ps =
      if (serase pinfo.dependentDefinitions nn).length = 0 then
        { s with
            paramsCRDControllers := aerase s.paramsCRDControllers K
            stoppedIds := s.stoppedIds ++ [pinfo.ctrlId] }
      else
        { s with
            paramsCRDControllers := ainsert s.paramsCRDControllers K
              ({ pinfo with dependentDefinitions := serase pinfo.dependentDefinitions nn }) } := by
  simp [dropOldParamDependency, hlv, hpk, hps, hop]

/-! ### Claim theorems -/

/-- C1: the claim says that after two distinct definitions are successfully
reconciled declaring the same param kind, the kind's watch entry lists both
as dependents, and that the entry is only stopped when no declaring
definition remains.  The code violates this: `reconcilePolicyDefinition`
only creates a dependents set `sets.New(nn)` when no entry exists
(controller_reconcile.go:233-259) and never inserts into an existing one,
so after reconciling `def1` and `def2` (both declaring `pkK`) the
dependents are `[def1]` alone, and deleting `def1` stops and deletes the
watch entry even though `def2` still declares `pkK`. -/
theorem c1_second_definition_not_added_to_dependents :
    reconcilePolicyDefinition env0 emptyPState "" "def1" (some defA) = some (c1s1, none) ∧
    reconcilePolicyDefinition env0 c1s1 "" "def2" (some defB) = some (c1s2, none) ∧
    (alookup c1s2.paramsCRDControllers pkK).map ParamInfo.dependentDefinitions =
      some [getNamespaceName "" "def1"] ∧
    reconcilePolicyDefinition env0 c1s2 "" "def1" none = some (c1s3, none) ∧
    alookup c1s3.paramsCRDControllers pkK = none ∧
    c1s3.stoppedIds = [0] ∧
    (alookup c1s3.definitionInfo (getNamespaceName "" "def2")).map
      DefinitionInfo.lastReconciledValue = some (some defB) := by
  decide

/-- C2: the claim says that after any sequence of reconcile calls every
binding identity in a dependency-index value set has a binding record.
The code violates this (contradicting its own invariant comment at
controller_reconcile.go:74-75): reconciling binding `b1` with an empty
`PolicyName` and then deleting it leaves `b1` in the index entry keyed by
the zero-value definition name while its record is deleted, because the
old and new target names coincide so the removal block is skipped. -/
theorem c2_index_retains_binding_without_record :
    reconcilePolicyBinding emptyPState "" "b1" (some bindEmptyName) = (c2s1, none) ∧
    reconcilePolicyBinding c2s1 "" "b1" none = (c2s2, none) ∧
    alookup c2s2.definitionsToBindings (getNamespaceName "" "") =
      some [getNamespaceName "" "b1"] ∧
    alookup c2s2.bindingInfos (getNamespaceName "" "b1") = none := by
  decide

/-- C10 counterexample: the claim says deleting a definition leaves all
binding records unchanged.  It does not: the invalidation loop
(controller_reconcile.go:186-190) runs before the deletion check, so
deleting `policy-A` clears `binding-1`'s compiled validator. -/
theorem c10_deletion_mutates_binding_record_counterexample :
    alookup c10s3.bindingInfos (getNamespaceName "" "binding-1") =
      some { validator := some { code := 7 }, lastReconciledValue := some bindToA } ∧
    reconcilePolicyDefinition env0 c10s3 "" "policy-A" none = some (c10s4, none) ∧
    alookup c10s4.bindingInfos (getNamespaceName "" "binding-1") =
      some { validator := none, lastReconciledValue := some bindToA } := by
  decide

/-- C4: if `reconcilePolicyDefinition` is called with a non-null definition
whose declared paramKind apiVersion fails group-version parsing, the
definition's record keeps the new value with a non-null configuration
error, and the call returns success (nil error) so the watch loop does not
retry (controller_reconcile.go:209-217). -/
theorem c4_parse_failure_terminal_no_retry
    (env : Env) (s : PState) (ns name : String)
    (d : ValidatingAdmissionPolicy) (pk : ParamKind) (msg : String)
    (hpk : d.spec.paramKind = some pk)
    (hparse : env.parseGroupVersion pk.apiVersion = .error msg)
    (hdeps : ∀ b ∈ (alookup s.definitionsToBindings (getNamespaceName ns name)).getD [],
        (alookup s.bindingInfos b).isSome) :
    ∃ s', reconcilePolicyDefinition env s ns name (some d) = some (s', none) ∧
      alookup s'.definitionInfo (getNamespaceName ns name) =
        some { configurationError := some (.parseParamKind pk msg),
               lastReconciledValue := some d } := by
  obtain ⟨info, s₁, hens, hidx, hbind⟩ :
      ∃ info s₁, ensureDefinitionRecord { s with cachedPolicies := none }
          (getNamespaceName ns name) = (info, s₁) ∧
        s₁.definitionsToBindings = s.definitionsToBindings ∧
        s₁.bindingInfos = s.bindingInfos := by
    cases hlook : alookup s.definitionInfo (getNamespaceName ns name) with
    | some i => exact ⟨i, _, ensureDefinitionRecord_some hlook, rfl, rfl⟩
    | none => exact ⟨_, _, ensureDefinitionRecord_none hlook, rfl, rfl⟩
  simp only [reconcilePolicyDefinition, paramSourceOf, hens, hpk]
  have hfr := dropOldParamDependency_frame s₁ (getNamespaceName ns name) info (some pk)
  rw [hfr.2.2.2.1, hidx]
  have hdeps2 : ∀ b ∈ (alookup s.definitionsToBindings (getNamespaceName ns name)).getD [],
      (alookup (dropOldParamDependency s₁ (getNamespaceName ns name) info
        (some pk)).bindingInfos b).isSome := by
    intro b hb
    rw [hfr.2.2.1, hbind]
    exact hdeps b hb
  obtain ⟨s₃, hinv⟩ := Option.isSome_iff_exists.mp (invalidateDeps_isSome hdeps2)
  simp only [hinv]
  simp only [definitionFinish, hparse]
  exact ⟨_, rfl, by rw [alookup_ainsert_self]⟩

/-- Witness for C4 at a concrete input: the empty state, a definition
declaring `pkK`, and a parser that rejects every apiVersion. -/
theorem c4_parse_failure_terminal_no_retry_witness :
    defA.spec.paramKind = some pkK ∧
    envParseFail.parseGroupVersion pkK.apiVersion =
      .error "unexpected GroupVersion string" ∧
    (∃ s', reconcilePolicyDefinition envParseFail emptyPState "" "policy-A"
        (some defA) = some (s', none) ∧
      alookup s'.definitionInfo (getNamespaceName "" "policy-A") =
        some { configurationError :=
                 some (.parseParamKind pkK "unexpected GroupVersion string"),
               lastReconciledValue := some defA }) :=
  ⟨by decide, by rfl,
   c4_parse_failure_terminal_no_retry envParseFail emptyPState "" "policy-A" defA
     pkK "unexpected GroupVersion string" (by decide) (by rfl) (by decide)⟩

theorem alookup_eq_none_forall {κ ν : Type} [DecidableEq κ]
    {l : List (κ × ν)} {k : κ} (h : alookup l k = none) : ∀ e ∈ l, e.1 ≠ k := by
  induction l with
  | nil => simp
  | cons e rest ih =>
    rcases e with ⟨ek, ev⟩
    by_cases he : ek = k
    · simp [alookup, he] at h
    · simp only [alookup, he, if_false] at h
      intro f hf
      rcases List.mem_cons.mp hf with hf | hf
      · subst hf; exact he
      · exact ih h f hf

theorem akeyCount_ainsert_fresh {κ ν : Type} [DecidableEq κ]
    {l : List (κ × ν)} {k : κ} (v : ν) (h : alookup l k = none) :
    akeyCount (ainsert l k v) k = 1 := by
  induction l with
  | nil => simp [ainsert, akeyCount]
  | cons e rest ih =>
    rcases e with ⟨ek, ev⟩
    by_cases he : ek = k
    · simp [alookup, he] at h
    · simp only [alookup, he, if_false] at h
      simp only [ainsert, he, if_false, akeyCount, List.countP_cons]
      rw [akeyCount] at ih
      simp [ih h, he]

theorem dropOldParamDependency_blank (s : PState) (nn : namespacedName)
    (e : Option GoError) (ps : Option ParamKind) :
    dropOldParamDependency s nn
      { configurationError := e, lastReconciledValue := none } ps = s := by
  simp [dropOldParamDependency]

theorem dropOldParamDependency_some_eq (s : PState) (nn : namespacedName)
    (e : Option GoError) (d : ValidatingAdmissionPolicy) (pk : ParamKind)
    (hpk : d.spec.paramKind = some pk) :
    dropOldParamDependency s nn
      { configurationError := e, lastReconciledValue := some d } (some pk) = s := by
  simp [dropOldParamDependency, hpk]

/-- C5: if a non-null definition's paramKind parses but RESTMapping fails,
the record's configuration error is set and the same error is returned (so
the watch loop retries); a subsequent reconcile of the same identity that
resolves successfully clears the error and leaves exactly one watch entry
for that kind (controller_reconcile.go:219-263). -/
theorem c5_mapping_failure_retry_then_recovery
    (env1 env2 : Env) (s : PState) (ns name : String)
    (d : ValidatingAdmissionPolicy) (pk : ParamKind)
    (gv gv2 : GroupVersion) (msg : String) (gvr : GroupVersionResource)
    (hpk : d.spec.paramKind = some pk)
    (hparse1 : env1.parseGroupVersion pk.apiVersion = .ok gv)
    (hmap1 : env1.restMapping { group := gv.group, kind := pk.kind } gv.version = .error msg)
    (hparse2 : env2.parseGroupVersion pk.apiVersion = .ok gv2)
    (hmap2 : env2.restMapping { group := gv2.group, kind := pk.kind } gv2.version = .ok gvr)
    (hfresh : alookup s.definitionInfo (getNamespaceName ns name) = none)
    (hK : alookup s.paramsCRDControllers pk = none)
    (hdeps : ∀ b ∈ (alookup s.definitionsToBindings (getNamespaceName ns name)).getD [],
        (alookup s.bindingInfos b).isSome) :
    ∃ s1, reconcilePolicyDefinition env1 s ns name (some d) =
        some (s1, some (.findResource gv pk.kind)) ∧
      alookup s1.definitionInfo (getNamespaceName ns name) =
        some { configurationError := some (.findResource gv pk.kind),
               lastReconciledValue := some d } ∧
      ∃ s2, reconcilePolicyDefinition env2 s1 ns name (some d) = some (s2, none) ∧
        alookup s2.definitionInfo (getNamespaceName ns name) =
          some { configurationError := none, lastReconciledValue := some d } ∧
        ∃ pinfo, alookup s2.paramsCRDControllers pk = some pinfo ∧
          pinfo.dependentDefinitions = [getNamespaceName ns name] ∧
          akeyCount s2.paramsCRDControllers pk = 1 := by
  have hfresh2 : alookup ({ s with cachedPolicies := none } : PState).definitionInfo
      (getNamespaceName ns name) = none := hfresh
  have hinvS : (invalidateDeps
      { s with
          cachedPolicies := none
          definitionInfo := ainsert s.definitionInfo (getNamespaceName ns name)
            { configurationError := none, lastReconciledValue := none } }
      ((alookup s.definitionsToBindings (getNamespaceName ns name)).getD [])).isSome :=
    invalidateDeps_isSome hdeps
  obtain ⟨s₃, hinv⟩ := Option.isSome_iff_exists.mp hinvS
  simp only [reconcilePolicyDefinition, paramSourceOf, ensureDefinitionRecord_none hfresh2,
    hpk, dropOldParamDependency_blank, hinv]
  simp only [definitionFinish, hparse1, hmap1]
  refine ⟨_, rfl, by rw [alookup_ainsert_self], ?_⟩
  dsimp only
  set T : PState :=
    { cachedPolicies := none, paramsCRDControllers := s₃.paramsCRDControllers,
      definitionInfo :=
        ainsert
          (ainsert s₃.definitionInfo (getNamespaceName ns name)
            { configurationError := none, lastReconciledValue := some d })
          (getNamespaceName ns name)
          { configurationError := some (GoError.findResource gv pk.kind),
            lastReconciledValue := some d },
      bindingInfos := s₃.bindingInfos, definitionsToBindings := s₃.definitionsToBindings,
      nextCtrlId := s₃.nextCtrlId, stoppedIds := s₃.stoppedIds } with hT
  have hlk2 : alookup T.definitionInfo (getNamespaceName ns name) =
      some { configurationError := some (GoError.findResource gv pk.kind),
             lastReconciledValue := some d } := by
    rw [hT]
    exact alookup_ainsert_self _ _ _
  simp only [ensureDefinitionRecord_some hlk2, dropOldParamDependency_some_eq, hpk]
  rw [(invalidateDeps_frame hinv).2.2.2.1]
  dsimp only
  have hdeps3 : ∀ b ∈ (alookup s.definitionsToBindings (getNamespaceName ns name)).getD [],
      (alookup s₃.bindingInfos b).isSome := by
    intro b hb
    rw [invalidateDeps_lookup hinv b]
    obtain ⟨bi, hbi⟩ := Option.isSome_iff_exists.mp (hdeps b hb)
    dsimp only
    simp [hbi, hb]
  have hinvS2 : (invalidateDeps T
      ((alookup s.definitionsToBindings (getNamespaceName ns name)).getD [])).isSome :=
    invalidateDeps_isSome hdeps3
  obtain ⟨s₅, hinv2⟩ := Option.isSome_iff_exists.mp hinvS2
  simp only [hinv2, hparse2, hmap2]
  have hK5 : alookup s₅.paramsCRDControllers pk = none := by
    rw [(invalidateDeps_frame hinv2).2.1, hT]
    dsimp only
    rw [(invalidateDeps_frame hinv).2.1]
    exact hK
  simp only [hK5]
  refine ⟨_, rfl, by rw [alookup_ainsert_self], ?_⟩
  dsimp only
  refine ⟨_, alookup_ainsert_self _ _ _, rfl, ?_⟩
  exact akeyCount_ainsert_fresh _ hK5

/-- Witness for C5 at a concrete input: a fresh `policy-A` declaring `pkK`,
a RESTMapper that fails, then one that succeeds. -/
theorem c5_mapping_failure_retry_then_recovery_witness :
    envMapFail.restMapping { group := "", kind := pkK.kind } "v1" =
      .error "no matches for kind" ∧
    env0.restMapping { group := "", kind := pkK.kind } "v1" =
      .ok { group := "", version := "v1", resource := "configmaps" } ∧
    (∃ s1, reconcilePolicyDefinition envMapFail emptyPState "" "policy-A" (some defA) =
        some (s1, some (.findResource { group := "", version := "v1" } pkK.kind)) ∧
      alookup s1.definitionInfo (getNamespaceName "" "policy-A") =
        some { configurationError :=
                 some (.findResource { group := "", version := "v1" } pkK.kind),
               lastReconciledValue := some defA } ∧
      ∃ s2, reconcilePolicyDefinition env0 s1 "" "policy-A" (some defA) = some (s2, none) ∧
        alookup s2.definitionInfo (getNamespaceName "" "policy-A") =
          some { configurationError := none, lastReconciledValue := some defA } ∧
        ∃ pinfo, alookup s2.paramsCRDControllers pkK = some pinfo ∧
          pinfo.dependentDefinitions = [getNamespaceName "" "policy-A"] ∧
          akeyCount s2.paramsCRDControllers pkK = 1) :=
  ⟨by rfl, by rfl,
   c5_mapping_failure_retry_then_recovery envMapFail env0 emptyPState "" "policy-A"
     defA pkK { group := "", version := "v1" } { group := "", version := "v1" }
     "no matches for kind" { group := "", version := "v1", resource := "configmaps" }
     (by decide) (by rfl) (by rfl) (by rfl) (by rfl) (by decide) (by decide) (by decide)⟩

theorem indexRemove_lookup_ne (idx : List (namespacedName × List namespacedName))
    (k k' m : namespacedName) (h : k' ≠ k) :
    alookup (indexRemove idx k m) k' = alookup idx k' := by
  unfold indexRemove
  cases alookup idx k with
  | none => rfl
  | some deps =>
    dsimp only
    split
    · exact alookup_aerase_ne _ _ _ h
    · exact alookup_ainsert_ne _ _ _ _ h

theorem indexRemove_lookup_self (idx : List (namespacedName × List namespacedName))
    (k m : namespacedName) (hk : (idx.map Prod.fst).Nodup) :
    alookup (indexRemove idx k m) k =
      match alookup idx k with
      | none => none
      | some deps =>
        if (serase deps m).length = 0 then none else some (serase deps m) := by
  unfold indexRemove
  cases h : alookup idx k with
  | none => exact h
  | some deps =>
    dsimp only
    split
    · exact alookup_aerase_self _ _ hk
    · exact alookup_ainsert_self _ _ _

theorem indexAdd_lookup_ne (idx : List (namespacedName × List namespacedName))
    (k k' m : namespacedName) (h : k' ≠ k) :
    alookup (indexAdd idx k m) k' = alookup idx k' := by
  unfold indexAdd
  cases alookup idx k with
  | none => exact alookup_ainsert_ne _ _ _ _ h
  | some deps => exact alookup_ainsert_ne _ _ _ _ h

theorem indexAdd_lookup_self (idx : List (namespacedName × List namespacedName))
    (k m : namespacedName) :
    alookup (indexAdd idx k m) k =
      some (match alookup idx k with
            | none => [m]
            | some deps => sinsert deps m) := by
  unfold indexAdd
  cases alookup idx k with
  | none => exact alookup_ainsert_self _ _ _
  | some deps => exact alookup_ainsert_self _ _ _

/-- C7: reconciling a binding previously targeting definition A with a new
value targeting a different definition D removes the binding from A's
dependency-index entry (deleting the key when its set empties), adds it to
D's entry (creating it when absent), and clears its compiled validator
(controller_reconcile.go:296-325). -/
theorem c7_binding_retarget_moves_dependency
    (s : PState) (ns name : String)
    (info : BindingInfo) (oldB newB : ValidatingAdmissionPolicyBinding)
    (hrec : alookup s.bindingInfos (getNamespaceName ns name) = some info)
    (hold : info.lastReconciledValue = some oldB)
    (hne : oldB.spec.policyName ≠ newB.spec.policyName)
    (hkeys : (s.definitionsToBindings.map Prod.fst).Nodup)
    (hsets : ∀ e ∈ s.definitionsToBindings, e.2.Nodup) :
    (reconcilePolicyBinding s ns name (some newB)).2 = none ∧
    getNamespaceName ns name ∉
      (alookup (reconcilePolicyBinding s ns name (some newB)).1.definitionsToBindings
        (getNamespaceName "" oldB.spec.policyName)).getD [] ∧
    (alookup (reconcilePolicyBinding s ns name (some newB)).1.definitionsToBindings
        (getNamespaceName "" oldB.spec.policyName) =
      match alookup s.definitionsToBindings (getNamespaceName "" oldB.spec.policyName) with
      | none => none
      | some deps =>
        if (serase deps (getNamespaceName ns name)).length = 0 then none
        else some (serase deps (getNamespaceName ns name))) ∧
    getNamespaceName ns name ∈
      (alookup (reconcilePolicyBinding s ns name (some newB)).1.definitionsToBindings
        (getNamespaceName "" newB.spec.policyName)).getD [] ∧
    alookup (reconcilePolicyBinding s ns name (some newB)).1.bindingInfos
        (getNamespaceName ns name) =
      some { validator := none, lastReconciledValue := some newB } := by
  have hrec2 : alookup ({ s with cachedPolicies := none } : PState).bindingInfos
      (getNamespaceName ns name) = some info := hrec
  have hAD : getNamespaceName "" oldB.spec.policyName ≠
      getNamespaceName "" newB.spec.policyName := by
    simp [getNamespaceName]
    intro hc
    exact hne hc
  simp only [reconcilePolicyBinding, ensureBindingRecord_some hrec2, hold, ne_eq, hAD,
    not_false_eq_true, if_true]
  have h3 : alookup
      (indexAdd
        (indexRemove s.definitionsToBindings (getNamespaceName "" oldB.spec.policyName)
          (getNamespaceName ns name))
        (getNamespaceName "" newB.spec.policyName) (getNamespaceName ns name))
      (getNamespaceName "" oldB.spec.policyName) =
      match alookup s.definitionsToBindings (getNamespaceName "" oldB.spec.policyName) with
      | none => none
      | some deps =>
        if (serase deps (getNamespaceName ns name)).length = 0 then none
        else some (serase deps (getNamespaceName ns name)) := by
    rw [indexAdd_lookup_ne _ _ _ _ hAD]
    exact indexRemove_lookup_self _ _ _ hkeys
  refine ⟨trivial, ?_, h3, ?_, ?_⟩
  · rw [h3]
    cases halo : alookup s.definitionsToBindings (getNamespaceName "" oldB.spec.policyName) with
    | none => simp
    | some deps =>
      dsimp only
      split
      · simp
      · simpa using not_mem_serase_self (hsets _ (alookup_eq_some_mem halo))
  · rw [indexAdd_lookup_self]
    cases halo2 : alookup
        (indexRemove s.definitionsToBindings (getNamespaceName "" oldB.spec.policyName)
          (getNamespaceName ns name))
        (getNamespaceName "" newB.spec.policyName) with
    | none => simp
    | some deps =>
      dsimp only
      simpa using mem_sinsert_self deps (getNamespaceName ns name)
  · exact alookup_ainsert_self _ _ _

/-- Witness for C7 at a concrete input: `binding-1`, reconciled to target
`policy-A`, retargeted to `policy-E`. -/
theorem c7_binding_retarget_moves_dependency_witness :
    alookup c10s2.bindingInfos (getNamespaceName "" "binding-1") =
      some { validator := none, lastReconciledValue := some bindToA } ∧
    bindToA.spec.policyName ≠ bindToE.spec.policyName ∧
    ((reconcilePolicyBinding c10s2 "" "binding-1" (some bindToE)).2 = none ∧
    getNamespaceName "" "binding-1" ∉
      (alookup (reconcilePolicyBinding c10s2 "" "binding-1"
          (some bindToE)).1.definitionsToBindings
        (getNamespaceName "" bindToA.spec.policyName)).getD [] ∧
    (alookup (reconcilePolicyBinding c10s2 "" "binding-1"
        (some bindToE)).1.definitionsToBindings
        (getNamespaceName "" bindToA.spec.policyName) =
      match alookup c10s2.definitionsToBindings
          (getNamespaceName "" bindToA.spec.policyName) with
      | none => none
      | some deps =>
        if (serase deps (getNamespaceName "" "binding-1")).length = 0 then none
        else some (serase deps (getNamespaceName "" "binding-1"))) ∧
    getNamespaceName "" "binding-1" ∈
      (alookup (reconcilePolicyBinding c10s2 "" "binding-1"
          (some bindToE)).1.definitionsToBindings
        (getNamespaceName "" bindToE.spec.policyName)).getD [] ∧
    alookup (reconcilePolicyBinding c10s2 "" "binding-1"
        (some bindToE)).1.bindingInfos (getNamespaceName "" "binding-1") =
      some { validator := none, lastReconciledValue := some bindToE }) :=
  ⟨by decide, by decide,
   c7_binding_retarget_moves_dependency c10s2 "" "binding-1"
     { validator := none, lastReconciledValue := some bindToA } bindToA bindToE
     (by decide) (by decide) (by decide) (by decide) (by decide)⟩

theorem invalidateDeps_mem_isSome {s s' : PState} {l : List namespacedName}
    (h : invalidateDeps s l = some s') :
    ∀ b ∈ l, (alookup s.bindingInfos b).isSome := by
  induction l generalizing s with
  | nil => simp
  | cons key rest ih =>
    cases hk : alookup s.bindingInfos key with
    | none => simp [invalidateDeps, hk] at h
    | some bi =>
      simp only [invalidateDeps, hk] at h
      intro b hb
      rcases List.mem_cons.mp hb with hb | hb
      · subst hb; simp [hk]
      · by_cases hbk : b = key
        · subst hbk; simp [hk]
        · have hrec := ih h b hb
          rw [alookup_ainsert_ne _ _ _ _ hbk] at hrec
          exact hrec

theorem definitionFinish_frame (env : Env) (s : PState) (nn : namespacedName)
    (info : DefinitionInfo) (dOpt : Option ValidatingAdmissionPolicy)
    (ps : Option ParamKind) :
    (definitionFinish env s nn info dOpt ps).1.bindingInfos = s.bindingInfos ∧
    (definitionFinish env s nn info dOpt ps).1.definitionsToBindings =
      s.definitionsToBindings ∧
    (definitionFinish env s nn info dOpt ps).1.cachedPolicies = s.cachedPolicies ∧
    (definitionFinish env s nn info dOpt ps).1.stoppedIds = s.stoppedIds := by
  unfold definitionFinish
  repeat' split
  all_goals refine ⟨?_, ?_, ?_, ?_⟩
  all_goals try simp
  all_goals
    rename_i oldPS v1 v2 v3 v4 v5 v6
  all_goals cases alookup s.paramsCRDControllers oldPS <;> simp

/-- C8: every successful `reconcilePolicyDefinition` call for an identity
(add, update, or deletion alike) clears the compiled validator of every
binding currently listed under that identity in the dependency index
(controller_reconcile.go:184-190). -/
theorem c8_definition_reconcile_invalidates_dependent_validators
    (env : Env) (s : PState) (ns name : String)
    (dOpt : Option ValidatingAdmissionPolicy) (s' : PState) (e : Option GoError)
    (h : reconcilePolicyDefinition env s ns name dOpt = some (s', e)) :
    ∀ b ∈ (alookup s.definitionsToBindings (getNamespaceName ns name)).getD [],
      ∃ bi, alookup s'.bindingInfos b = some bi ∧ bi.validator = none := by
  obtain ⟨info, s₁, hens, hidx, hbind⟩ :
      ∃ info s₁, ensureDefinitionRecord { s with cachedPolicies := none }
          (getNamespaceName ns name) = (info, s₁) ∧
        s₁.definitionsToBindings = s.definitionsToBindings ∧
        s₁.bindingInfos = s.bindingInfos := by
    cases hlook : alookup s.definitionInfo (getNamespaceName ns name) with
    | some i => exact ⟨i, _, ensureDefinitionRecord_some hlook, rfl, rfl⟩
    | none => exact ⟨_, _, ensureDefinitionRecord_none hlook, rfl, rfl⟩
  simp only [reconcilePolicyDefinition, hens] at h
  have hfr := dropOldParamDependency_frame s₁ (getNamespaceName ns name) info
    (paramSourceOf dOpt)
  rw [hfr.2.2.2.1, hidx] at h
  cases hinv : invalidateDeps
      (dropOldParamDependency s₁ (getNamespaceName ns name) info (paramSourceOf dOpt))
      ((alookup s.definitionsToBindings (getNamespaceName ns name)).getD []) with
  | none => rw [hinv] at h; simp at h
  | some s₃ =>
    rw [hinv] at h
    simp only [Option.some.injEq] at h
    intro b hb
    have hlk := invalidateDeps_lookup hinv b
    have hiso := invalidateDeps_mem_isSome hinv b hb
    obtain ⟨bi, hbi⟩ := Option.isSome_iff_exists.mp hiso
    rw [hbi] at hlk
    simp only [hb, if_true, Option.map_some'] at hlk
    have hff := (definitionFinish_frame env s₃ (getNamespaceName ns name) info dOpt
      (paramSourceOf dOpt)).1
    have hs' : s'.bindingInfos = s₃.bindingInfos := by
      have h1 : (definitionFinish env s₃ (getNamespaceName ns name) info dOpt
          (paramSourceOf dOpt)).1 = s' := by rw [h]
      rw [← h1]
      exact hff
    rw [hs']
    exact ⟨_, hlk, rfl⟩

/-- Witness for C8 at a concrete input: updating `policy-A` in the state
where `binding-1` holds a compiled validator. -/
theorem c8_definition_reconcile_invalidates_dependent_validators_witness :
    reconcilePolicyDefinition env0 c10s3 "" "policy-A" (some defPlain) =
      some (runDef env0 c10s3 "" "policy-A" (some defPlain), none) ∧
    (∀ b ∈ (alookup c10s3.definitionsToBindings (getNamespaceName "" "policy-A")).getD [],
      ∃ bi, alookup (runDef env0 c10s3 "" "policy-A"
          (some defPlain)).bindingInfos b = some bi ∧
        bi.validator = none) :=
  ⟨by decide,
   c8_definition_reconcile_invalidates_dependent_validators env0 c10s3 "" "policy-A"
     (some defPlain) (runDef env0 c10s3 "" "policy-A" (some defPlain)) none (by decide)⟩

theorem buildBindings_frame {env : Env} {dn : namespacedName} {di : DefinitionInfo}
    {s s2 : PState} {bs : List namespacedName} {out : List BindingInfo}
    {calls : List CompileCall}
    (h : buildBindings env dn di s bs = some (out, s2, calls)) :
    s2.cachedPolicies = s.cachedPolicies ∧
    s2.paramsCRDControllers = s.paramsCRDControllers ∧
    s2.definitionInfo = s.definitionInfo ∧
    s2.definitionsToBindings = s.definitionsToBindings ∧
    s2.nextCtrlId = s.nextCtrlId ∧
    s2.stoppedIds = s.stoppedIds := by
  induction bs generalizing s s2 out calls with
  | nil =>
    simp only [buildBindings, Option.some.injEq, Prod.mk.injEq] at h
    rw [← h.2.1]
    exact ⟨rfl, rfl, rfl, rfl, rfl, rfl⟩
  | cons key rest ih =>
    cases hk : alookup s.bindingInfos key with
    | none => simp [buildBindings, hk] at h
    | some bi =>
      simp only [buildBindings, hk] at h
      by_cases hcond : bi.validator.isNone && di.configurationError.isNone
      · rw [if_pos hcond] at h
        cases hrec : buildBindings env dn di
            { s with
                bindingInfos :=
                  ainsert s.bindingInfos key
                    { bi with validator := some (env.compile di.lastReconciledValue) } }
            rest with
        | none => rw [hrec] at h; simp at h
        | some t =>
          rw [hrec] at h
          rcases t with ⟨out2, s3, calls2⟩
          simp only [Option.some.injEq, Prod.mk.injEq] at h
          have hfr := ih hrec
          rw [← h.2.1]
          exact hfr
      · rw [if_neg hcond] at h
        cases hrec : buildBindings env dn di s rest with
        | none => rw [hrec] at h; simp at h
        | some t =>
          rw [hrec] at h
          rcases t with ⟨out2, s3, calls2⟩
          simp only [Option.some.injEq, Prod.mk.injEq] at h
          have hfr := ih hrec
          rw [← h.2.1]
          exact hfr

theorem buildPolicyData_frame {env : Env} {s s2 : PState}
    {l : List (namespacedName × DefinitionInfo)} {res : List PolicyData}
    {calls : List CompileCall}
    (h : buildPolicyData env s l = some (res, s2, calls)) :
    s2.cachedPolicies = s.cachedPolicies ∧
    s2.paramsCRDControllers = s.paramsCRDControllers ∧
    s2.definitionInfo = s.definitionInfo ∧
    s2.definitionsToBindings = s.definitionsToBindings ∧
    s2.nextCtrlId = s.nextCtrlId ∧
    s2.stoppedIds = s.stoppedIds := by
  induction l generalizing s s2 res calls with
  | nil =>
    simp only [buildPolicyData, Option.some.injEq, Prod.mk.injEq] at h
    rw [← h.2.1]
    exact ⟨rfl, rfl, rfl, rfl, rfl, rfl⟩
  | cons e rest ih =>
    rcases e with ⟨dn, di⟩
    cases hbb : buildBindings env dn di s ((alookup s.definitionsToBindings dn).getD []) with
    | none => simp [buildPolicyData, hbb] at h
    | some t =>
      rcases t with ⟨out, s3, calls1⟩
      simp only [buildPolicyData, hbb] at h
      cases hlv : di.lastReconciledValue with
      | none => rw [hlv] at h; simp at h
      | some lastVal =>
        rw [hlv] at h
        cases hrec : buildPolicyData env s3 rest with
        | none => simp only [hrec] at h; simp at h
        | some t2 =>
          rcases t2 with ⟨res2, s4, calls2⟩
          simp only [hrec, Option.some.injEq, Prod.mk.injEq] at h
          have hf1 := buildBindings_frame hbb
          have hf2 := ih hrec
          rw [← h.2.1]
          exact ⟨hf2.1.trans hf1.1, hf2.2.1.trans hf1.2.1, hf2.2.2.1.trans hf1.2.2.1,
            hf2.2.2.2.1.trans hf1.2.2.2.1, hf2.2.2.2.2.1.trans hf1.2.2.2.2.1,
            hf2.2.2.2.2.2.trans hf1.2.2.2.2.2⟩

theorem buildPolicyData_length {env : Env} {s s2 : PState}
    {l : List (namespacedName × DefinitionInfo)} {res : List PolicyData}
    {calls : List CompileCall}
    (h : buildPolicyData env s l = some (res, s2, calls)) : res.length = l.length := by
  induction l generalizing s s2 res calls with
  | nil =>
    simp only [buildPolicyData, Option.some.injEq, Prod.mk.injEq] at h
    rw [← h.1]
    rfl
  | cons e rest ih =>
    rcases e with ⟨dn, di⟩
    cases hbb : buildBindings env dn di s ((alookup s.definitionsToBindings dn).getD []) with
    | none => simp [buildPolicyData, hbb] at h
    | some t =>
      rcases t with ⟨out, s3, calls1⟩
      simp only [buildPolicyData, hbb] at h
      cases hlv : di.lastReconciledValue with
      | none => rw [hlv] at h; simp at h
      | some lastVal =>
        rw [hlv] at h
        cases hrec : buildPolicyData env s3 rest with
        | none => simp only [hrec] at h; simp at h
        | some t2 =>
          rcases t2 with ⟨res2, s4, calls2⟩
          simp only [hrec, Option.some.injEq, Prod.mk.injEq] at h
          rw [← h.1]
          simp [ih hrec]

/-- C6: calling `latestPolicyData` twice with no intervening reconcile
returns the identical snapshot list, leaves the state unchanged, and makes
no further compilation-service calls (controller_reconcile.go:338-380). -/
theorem c6_latest_policy_data_idempotent (env : Env) (s : PState) (res : List PolicyData) (s' : PState)
    (calls : List CompileCall)
    (h : latestPolicyData env s = some (res, s', calls)) :
    latestPolicyData env s' = some (res, s', []) := by
  unfold latestPolicyData at h
  cases hc : s.cachedPolicies with
  | some l =>
    rw [hc] at h
    simp only [Option.some.injEq, Prod.mk.injEq] at h
    obtain ⟨h1, h2, h3⟩ := h
    subst h1 h2
    unfold latestPolicyData
    rw [hc]
  | none =>
    rw [hc] at h
    cases hb : buildPolicyData env s s.definitionInfo with
    | none => rw [hb] at h; simp at h
    | some t =>
      rcases t with ⟨res0, s2, calls0⟩
      rw [hb] at h
      simp only [Option.some.injEq, Prod.mk.injEq] at h
      obtain ⟨h1, h2, h3⟩ := h
      subst h1 h2 h3
      by_cases hres : res0 = []
      · subst hres
        have hlen := buildPolicyData_length hb
        have hdefs : s.definitionInfo = [] := by
          cases hdef : s.definitionInfo with
          | nil => rfl
          | cons a rest => rw [hdef] at hlen; simp at hlen
        have hdef2 : s2.definitionInfo = [] := by
          rw [(buildPolicyData_frame hb).2.2.1, hdefs]
        unfold latestPolicyData
        dsimp only
        rw [hdef2]
        simp [buildPolicyData]
      · unfold latestPolicyData
        simp [hres]

/-- Witness for C6 at a concrete input: the state with `policy-A` and
`binding-1`, whose first read compiles one validator. -/
theorem c6_latest_policy_data_idempotent_witness :
    latestPolicyData env0 c10s2 =
      some (((latestPolicyData env0 c10s2).getD ([], emptyPState, [])).1, c10s3,
            ((latestPolicyData env0 c10s2).getD ([], emptyPState, [])).2.2) ∧
    latestPolicyData env0 c10s3 =
      some (((latestPolicyData env0 c10s2).getD ([], emptyPState, [])).1, c10s3, []) :=
  ⟨by decide,
   c6_latest_policy_data_idempotent env0 c10s2
     ((latestPolicyData env0 c10s2).getD ([], emptyPState, [])).1 c10s3
     ((latestPolicyData env0 c10s2).getD ([], emptyPState, [])).2.2 (by decide)⟩

theorem buildPolicyData_defs {env : Env} {s s2 : PState}
    {l : List (namespacedName × DefinitionInfo)} {res : List PolicyData}
    {calls : List CompileCall}
    (h : buildPolicyData env s l = some (res, s2, calls)) :
    ∀ pd ∈ res, ∃ e, e ∈ l ∧ pd.definitionInfo = e.2 := by
  induction l generalizing s s2 res calls with
  | nil =>
    simp only [buildPolicyData, Option.some.injEq, Prod.mk.injEq] at h
    rw [← h.1]
    simp
  | cons e rest ih =>
    rcases e with ⟨dn, di⟩
    cases hbb : buildBindings env dn di s ((alookup s.definitionsToBindings dn).getD []) with
    | none => simp [buildPolicyData, hbb] at h
    | some t =>
      rcases t with ⟨out, s3, calls1⟩
      simp only [buildPolicyData, hbb] at h
      cases hlv : di.lastReconciledValue with
      | none => rw [hlv] at h; simp at h
      | some lastVal =>
        rw [hlv] at h
        cases hrec : buildPolicyData env s3 rest with
        | none => simp only [hrec] at h; simp at h
        | some t2 =>
          rcases t2 with ⟨res2, s4, calls2⟩
          simp only [hrec, Option.some.injEq, Prod.mk.injEq] at h
          rw [← h.1]
          intro pd hpd
          rcases List.mem_cons.mp hpd with hpd | hpd
          · subst hpd
            exact ⟨(dn, di), by simp, rfl⟩
          · obtain ⟨e, he, heq⟩ := ih hrec pd hpd
            exact ⟨e, List.mem_cons_of_mem _ he, heq⟩

/-- After a mutation that leaves no record for `nn` and an invalidated
cache, a rebuilt snapshot contains only entries derived from records of
other identities. -/
theorem latestPolicyData_no_entry {env : Env} {s' s'' : PState}
    {res : List PolicyData} {calls : List CompileCall} {nn : namespacedName}
    (hlp : latestPolicyData env s' = some (res, s'', calls))
    (hnone : alookup s'.definitionInfo nn = none)
    (hcached : s'.cachedPolicies = none) :
    ∀ pd ∈ res, ∃ e, e ∈ s'.definitionInfo ∧ e.1 ≠ nn ∧ pd.definitionInfo = e.2 := by
  unfold latestPolicyData at hlp
  rw [hcached] at hlp
  cases hb : buildPolicyData env s' s'.definitionInfo with
  | none => rw [hb] at hlp; simp at hlp
  | some t =>
    rcases t with ⟨res0, s2, calls0⟩
    rw [hb] at hlp
    simp only [Option.some.injEq, Prod.mk.injEq] at hlp
    obtain ⟨h1, h2, h3⟩ := hlp
    subst h1
    intro pd hpd
    obtain ⟨e, he, heq⟩ := buildPolicyData_defs hb pd hpd
    exact ⟨e, he, alookup_eq_none_forall hnone e he, heq⟩

/-- C9: reconciling a deletion for a definition that previously declared
param kind K removes it from K's watch-entry dependents (stopping the
controller and deleting the entry when the dependents empty), deletes its
definition record, returns success, and a subsequent rebuild produces no
snapshot entry derived from that identity
(controller_reconcile.go:164-195, 354-376). -/
theorem c9_definition_deletion_cleanup
    (env : Env) (s : PState) (ns name : String)
    (info : DefinitionInfo) (d : ValidatingAdmissionPolicy) (K : ParamKind)
    (pinfo : ParamInfo)
    (hrec : alookup s.definitionInfo (getNamespaceName ns name) = some info)
    (hlv : info.lastReconciledValue = some d)
    (hpk : d.spec.paramKind = some K)
    (hK : alookup s.paramsCRDControllers K = some pinfo)
    (hkeys : (s.paramsCRDControllers.map Prod.fst).Nodup)
    (hdkeys : (s.definitionInfo.map Prod.fst).Nodup)
    (hnd : pinfo.dependentDefinitions.Nodup)
    (hdeps : ∀ b ∈ (alookup s.definitionsToBindings (getNamespaceName ns name)).getD [],
        (alookup s.bindingInfos b).isSome) :
    ∃ s', reconcilePolicyDefinition env s ns name none = some (s', none) ∧
      alookup s'.definitionInfo (getNamespaceName ns name) = none ∧
      getNamespaceName ns name ∉
        ((alookup s'.paramsCRDControllers K).map ParamInfo.dependentDefinitions).getD [] ∧
      (if (serase pinfo.dependentDefinitions (getNamespaceName ns name)).length = 0 then
        alookup s'.paramsCRDControllers K = none ∧ pinfo.ctrlId ∈ s'.stoppedIds
      else
        alookup s'.paramsCRDControllers K =
          some { pinfo with
                 dependentDefinitions :=
                   serase pinfo.dependentDefinitions (getNamespaceName ns name) }) ∧
      (∀ res s'' calls, latestPolicyData env s' = some (res, s'', calls) →
        ∀ pd ∈ res, ∃ e, e ∈ s'.definitionInfo ∧ e.1 ≠ getNamespaceName ns name ∧
          pd.definitionInfo = e.2) := by
  have hrec2 : alookup ({ s with cachedPolicies := none } : PState).definitionInfo
      (getNamespaceName ns name) = some info := hrec
  have hK2 : alookup ({ s with cachedPolicies := none } : PState).paramsCRDControllers
      K = some pinfo := hK
  have hps : (none : Option ParamKind) ≠ some K := by simp
  have hdrop := @dropOldParamDependency_removes { s with cachedPolicies := none }
    (getNamespaceName ns name) info none d K pinfo hlv hpk hps hK2
  by_cases hlen : (serase pinfo.dependentDefinitions (getNamespaceName ns name)).length = 0
  · rw [if_pos hlen] at hdrop
    have hinvS : (invalidateDeps
        { s with
            cachedPolicies := none
            paramsCRDControllers := aerase s.paramsCRDControllers K
            stoppedIds := s.stoppedIds ++ [pinfo.ctrlId] }
        ((alookup s.definitionsToBindings (getNamespaceName ns name)).getD [])).isSome :=
      invalidateDeps_isSome hdeps
    obtain ⟨s₃, hinv⟩ := Option.isSome_iff_exists.mp hinvS
    simp only [reconcilePolicyDefinition, paramSourceOf,
      ensureDefinitionRecord_some hrec2, hdrop]
    simp only [hinv]
    simp only [definitionFinish]
    have hfr := invalidateDeps_frame hinv
    have g1 : alookup (aerase s₃.definitionInfo (getNamespaceName ns name))
        (getNamespaceName ns name) = none := by
      rw [hfr.2.2.1]
      exact alookup_aerase_self _ _ hdkeys
    have g2 : alookup s₃.paramsCRDControllers K = none := by
      rw [hfr.2.1]
      exact alookup_aerase_self _ _ hkeys
    refine ⟨_, rfl, g1, ?_, ?_, ?_⟩
    · dsimp only
      simp [g2]
    · rw [if_pos hlen]
      refine ⟨g2, ?_⟩
      dsimp only
      rw [hfr.2.2.2.2.2]
      simp
    · intro res s'' calls hlp
      refine latestPolicyData_no_entry hlp g1 ?_
      dsimp only
      rw [hfr.1]
  · rw [if_neg hlen] at hdrop
    have hinvS : (invalidateDeps
        { s with
            cachedPolicies := none
            paramsCRDControllers :=
              ainsert s.paramsCRDControllers K
                { pinfo with
                  dependentDefinitions :=
                    serase pinfo.dependentDefinitions (getNamespaceName ns name) } }
        ((alookup s.definitionsToBindings (getNamespaceName ns name)).getD [])).isSome :=
      invalidateDeps_isSome hdeps
    obtain ⟨s₃, hinv⟩ := Option.isSome_iff_exists.mp hinvS
    simp only [reconcilePolicyDefinition, paramSourceOf,
      ensureDefinitionRecord_some hrec2, hdrop]
    simp only [hinv]
    simp only [definitionFinish]
    have hfr := invalidateDeps_frame hinv
    have g1 : alookup (aerase s₃.definitionInfo (getNamespaceName ns name))
        (getNamespaceName ns name) = none := by
      rw [hfr.2.2.1]
      exact alookup_aerase_self _ _ hdkeys
    have g2 : alookup s₃.paramsCRDControllers K =
        some { pinfo with
               dependentDefinitions :=
                 serase pinfo.dependentDefinitions (getNamespaceName ns name) } := by
      rw [hfr.2.1]
      exact alookup_ainsert_self _ _ _
    refine ⟨_, rfl, g1, ?_, ?_, ?_⟩
    · dsimp only
      simp only [g2, Option.map_some', Option.getD_some]
      exact not_mem_serase_self hnd
    · rw [if_neg hlen]
      exact g2
    · intro res s'' calls hlp
      refine latestPolicyData_no_entry hlp g1 ?_
      dsimp only
      rw [hfr.1]

/-- Witness for C9 at a concrete input: deleting `policy-A`, the sole
dependent of `pkK`'s watch entry. -/
theorem c9_definition_deletion_cleanup_witness :
    alookup c9s1.definitionInfo (getNamespaceName "" "policy-A") =
      some { configurationError := none, lastReconciledValue := some defA } ∧
    alookup c9s1.paramsCRDControllers pkK =
      some { ctrlId := 0, dependentDefinitions := [getNamespaceName "" "policy-A"] } ∧
    (∃ s', reconcilePolicyDefinition env0 c9s1 "" "policy-A" none = some (s', none) ∧
      alookup s'.definitionInfo (getNamespaceName "" "policy-A") = none ∧
      getNamespaceName "" "policy-A" ∉
        ((alookup s'.paramsCRDControllers pkK).map ParamInfo.dependentDefinitions).getD [] ∧
      (if (serase [getNamespaceName "" "policy-A"]
            (getNamespaceName "" "policy-A")).length = 0 then
        alookup s'.paramsCRDControllers pkK = none ∧ 0 ∈ s'.stoppedIds
      else
        alookup s'.paramsCRDControllers pkK =
          some { ctrlId := 0,
                 dependentDefinitions :=
                   serase [getNamespaceName "" "policy-A"]
                     (getNamespaceName "" "policy-A") }) ∧
      (∀ res s'' calls, latestPolicyData env0 s' = some (res, s'', calls) →
        ∀ pd ∈ res, ∃ e, e ∈ s'.definitionInfo ∧ e.1 ≠ getNamespaceName "" "policy-A" ∧
          pd.definitionInfo = e.2)) :=
  ⟨by decide, by decide,
   c9_definition_deletion_cleanup env0 c9s1 "" "policy-A"
     { configurationError := none, lastReconciledValue := some defA } defA pkK
     { ctrlId := 0, dependentDefinitions := [getNamespaceName "" "policy-A"] }
     (by decide) (by decide) (by decide) (by decide) (by decide) (by decide)
     (by decide) (by decide)⟩

theorem mem_keys_ainsert {κ ν : Type} [DecidableEq κ]
    {l : List (κ × ν)} {k a : κ} {v : ν}
    (h : a ∈ (ainsert l k v).map Prod.fst) : a ∈ l.map Prod.fst ∨ a = k := by
  induction l with
  | nil => simpa [ainsert] using h
  | cons e rest ih =>
    rcases e with ⟨ek, ev⟩
    by_cases he : ek = k
    · simp only [ainsert, if_pos he, List.map_cons, List.mem_cons] at h
      rcases h with h | h
      · exact Or.inr h
      · exact Or.inl (by simp [h])
    · simp only [ainsert, if_neg he, List.map_cons, List.mem_cons] at h
      rcases h with h | h
      · exact Or.inl (by simp [h])
      · rcases ih h with h2 | h2
        · exact Or.inl (by simp [h2])
        · exact Or.inr h2

theorem ainsert_keys_nodup {κ ν : Type} [DecidableEq κ]
    {l : List (κ × ν)} {k : κ} {v : ν}
    (h : (l.map Prod.fst).Nodup) : ((ainsert l k v).map Prod.fst).Nodup := by
  induction l with
  | nil => simp [ainsert]
  | cons e rest ih =>
    rcases e with ⟨ek, ev⟩
    simp only [List.map_cons, List.nodup_cons] at h
    by_cases he : ek = k
    · simp only [ainsert, if_pos he, List.map_cons, List.nodup_cons]
      exact ⟨he ▸ h.1, h.2⟩
    · simp only [ainsert, if_neg he, List.map_cons, List.nodup_cons]
      refine ⟨fun hc => ?_, ih h.2⟩
      rcases mem_keys_ainsert hc with hc | hc
      · exact h.1 hc
      · exact he hc

/-- C10 (amended): deleting a definition D, besides invalidating the cache
and updating the parameter watch entry when applicable, deletes D's
definition record and clears the compiled validators of D's dependent
bindings, and changes nothing else: the dependency index is untouched (D's
entry survives), other definitions' records are untouched, bindings not
dependent on D are untouched, and D's dependent bindings keep their last
reconciled value with only the validator slot cleared
(controller_reconcile.go:184-195). -/
theorem c10_deletion_frame_amended
    (env : Env) (s : PState) (ns name : String) (s' : PState) (e : Option GoError)
    (h : reconcilePolicyDefinition env s ns name none = some (s', e))
    (hdkeys : (s.definitionInfo.map Prod.fst).Nodup) :
    e = none ∧
    s'.definitionsToBindings = s.definitionsToBindings ∧
    alookup s'.definitionInfo (getNamespaceName ns name) = none ∧
    (∀ k, k ≠ getNamespaceName ns name →
      alookup s'.definitionInfo k = alookup s.definitionInfo k) ∧
    (∀ b, b ∉ (alookup s.definitionsToBindings (getNamespaceName ns name)).getD [] →
      alookup s'.bindingInfos b = alookup s.bindingInfos b) ∧
    (∀ b ∈ (alookup s.definitionsToBindings (getNamespaceName ns name)).getD [],
      alookup s'.bindingInfos b =
        (alookup s.bindingInfos b).map (fun bi => { bi with validator := none })) := by
  obtain ⟨info, s₁, hens, hidx, hbind, hdef⟩ :
      ∃ info s₁, ensureDefinitionRecord { s with cachedPolicies := none }
          (getNamespaceName ns name) = (info, s₁) ∧
        s₁.definitionsToBindings = s.definitionsToBindings ∧
        s₁.bindingInfos = s.bindingInfos ∧
        (s₁.definitionInfo = s.definitionInfo ∨
          s₁.definitionInfo = ainsert s.definitionInfo (getNamespaceName ns name)
            { configurationError := none, lastReconciledValue := none }) := by
    cases hlook : alookup s.definitionInfo (getNamespaceName ns name) with
    | some i => exact ⟨i, _, ensureDefinitionRecord_some hlook, rfl, rfl, Or.inl rfl⟩
    | none => exact ⟨_, _, ensureDefinitionRecord_none hlook, rfl, rfl, Or.inr rfl⟩
  simp only [reconcilePolicyDefinition, paramSourceOf, hens] at h
  have hfr := dropOldParamDependency_frame s₁ (getNamespaceName ns name) info none
  rw [hfr.2.2.2.1, hidx] at h
  cases hinv : invalidateDeps
      (dropOldParamDependency s₁ (getNamespaceName ns name) info none)
      ((alookup s.definitionsToBindings (getNamespaceName ns name)).getD []) with
  | none => rw [hinv] at h; simp at h
  | some s₃ =>
    rw [hinv] at h
    simp only [definitionFinish, Option.some.injEq] at h
    have hifr := invalidateDeps_frame hinv
    have hs3def : s₃.definitionInfo = s₁.definitionInfo := by
      rw [hifr.2.2.1, hfr.2.1]
    have hs3idx : s₃.definitionsToBindings = s.definitionsToBindings := by
      rw [hifr.2.2.2.1, hfr.2.2.2.1, hidx]
    obtain ⟨hs', he⟩ : ({ s₃ with
        definitionInfo := aerase s₃.definitionInfo (getNamespaceName ns name) } : PState) = s' ∧
        (none : Option GoError) = e := by
      constructor
      · exact congrArg Prod.fst h
      · exact congrArg Prod.snd h
    subst hs' he
    refine ⟨rfl, hs3idx, ?_, ?_, ?_, ?_⟩
    · show alookup (aerase s₃.definitionInfo (getNamespaceName ns name))
        (getNamespaceName ns name) = none
      rw [hs3def]
      rcases hdef with hdef | hdef
      · rw [hdef]
        exact alookup_aerase_self _ _ hdkeys
      · rw [hdef]
        exact alookup_aerase_self _ _ (ainsert_keys_nodup hdkeys)
    · intro k hk
      show alookup (aerase s₃.definitionInfo (getNamespaceName ns name)) k =
        alookup s.definitionInfo k
      rw [hs3def]
      rcases hdef with hdef | hdef
      · rw [hdef]
        exact alookup_aerase_ne _ _ _ hk
      · rw [hdef, alookup_aerase_ne _ _ _ hk]
        exact alookup_ainsert_ne _ _ _ _ hk
    · intro b hb
      show alookup s₃.bindingInfos b = alookup s.bindingInfos b
      rw [invalidateDeps_lookup hinv b, if_neg hb, hfr.2.2.1, hbind]
    · intro b hb
      show alookup s₃.bindingInfos b =
        (alookup s.bindingInfos b).map (fun bi => { bi with validator := none })
      rw [invalidateDeps_lookup hinv b, if_pos hb, hfr.2.2.1, hbind]

/-- Witness for C10's amended claim at a concrete input: deleting `policy-A`
from the state where `binding-1` holds a compiled validator. -/
theorem c10_deletion_frame_amended_witness :
    reconcilePolicyDefinition env0 c10s3 "" "policy-A" none = some (c10s4, none) ∧
    ((none : Option GoError) = none ∧
     c10s4.definitionsToBindings = c10s3.definitionsToBindings ∧
     alookup c10s4.definitionInfo (getNamespaceName "" "policy-A") = none ∧
     (∀ k, k ≠ getNamespaceName "" "policy-A" →
       alookup c10s4.definitionInfo k = alookup c10s3.definitionInfo k) ∧
     (∀ b, b ∉ (alookup c10s3.definitionsToBindings
         (getNamespaceName "" "policy-A")).getD [] →
       alookup c10s4.bindingInfos b = alookup c10s3.bindingInfos b) ∧
     (∀ b ∈ (alookup c10s3.definitionsToBindings
         (getNamespaceName "" "policy-A")).getD [],
       alookup c10s4.bindingInfos b =
         (alookup c10s3.bindingInfos b).map (fun bi => { bi with validator := none }))) :=
  ⟨by decide,
   c10_deletion_frame_amended env0 c10s3 "" "policy-A" c10s4 none (by decide) (by decide)⟩

theorem buildBindings_char {env : Env} {dn : namespacedName} {di : DefinitionInfo}
    {s s2 : PState} {bs : List namespacedName} {out : List BindingInfo}
    {calls : List CompileCall}
    (h : buildBindings env dn di s bs = some (out, s2, calls))
    (hnd : bs.Nodup) :
    calls = (bs.filter (needsCompile s di)).map
        (fun b => { definitionName := dn, bindingName := b,
                    arg := di.lastReconciledValue }) ∧
    (∀ b, alookup s2.bindingInfos b =
       if needsCompile s di b ∧ b ∈ bs then
         (alookup s.bindingInfos b).map
           (fun bi => { bi with validator := some (env.compile di.lastReconciledValue) })
       else alookup s.bindingInfos b) ∧
    List.Forall₂ (fun bi b => alookup s2.bindingInfos b = some bi) out bs := by
  induction bs generalizing s s2 out calls with
  | nil =>
    simp only [buildBindings, Option.some.injEq, Prod.mk.injEq] at h
    obtain ⟨h1, h2, h3⟩ := h
    subst h1 h2 h3
    refine ⟨rfl, ?_, List.Forall₂.nil⟩
    intro b
    simp
  | cons key rest ih =>
    rcases List.nodup_cons.mp hnd with ⟨hkey, hndr⟩
    cases hk : alookup s.bindingInfos key with
    | none => simp [buildBindings, hk] at h
    | some bi =>
      simp only [buildBindings, hk] at h
      have hnc : needsCompile s di key =
          (bi.validator.isNone && di.configurationError.isNone) := by
        simp [needsCompile, hk]
      by_cases hcond : (bi.validator.isNone && di.configurationError.isNone) = true
      · rw [if_pos hcond] at h
        cases hrec2 : buildBindings env dn di
            { s with
                bindingInfos :=
                  ainsert s.bindingInfos key
                    { bi with validator := some (env.compile di.lastReconciledValue) } }
            rest with
        | none => rw [hrec2] at h; simp at h
        | some t =>
          rcases t with ⟨out2, s3, calls2⟩
          rw [hrec2] at h
          simp only [Option.some.injEq, Prod.mk.injEq] at h
          obtain ⟨h1, h2, h3⟩ := h
          subst h1 h2 h3
          obtain ⟨ihc, ihs, ihf⟩ := ih hrec2 hndr
          have hcongr : ∀ b ∈ rest,
              needsCompile
                { s with
                    bindingInfos :=
                      ainsert s.bindingInfos key
                        { bi with validator := some (env.compile di.lastReconciledValue) } }
                di b = needsCompile s di b := by
            intro b hb
            have hbk : b ≠ key := fun hc => hkey (hc ▸ hb)
            simp only [needsCompile]
            rw [alookup_ainsert_ne _ _ _ _ hbk]
          refine ⟨?_, ?_, ?_⟩
          · rw [ihc, List.filter_congr hcongr, List.filter_cons,
              if_pos (by rw [hnc]; exact hcond)]
            simp
          · intro b
            rw [ihs b]
            by_cases hbk : b = key
            · subst hbk
              split
              · rename_i hc
                exact absurd hc.2 hkey
              · dsimp only
                rw [alookup_ainsert_self]
                split
                · rw [hk]
                  rfl
                · rename_i hc
                  exact absurd ⟨by rw [hnc]; exact hcond, by simp⟩ hc
            · split
              · rename_i hc
                dsimp only
                rw [alookup_ainsert_ne _ _ _ _ hbk]
                split
                · rfl
                · rename_i hc2
                  exact absurd ⟨(hcongr b hc.2) ▸ hc.1, List.mem_cons_of_mem _ hc.2⟩ hc2
              · rename_i hc
                dsimp only
                rw [alookup_ainsert_ne _ _ _ _ hbk]
                split
                · rename_i hc2
                  have hbr : b ∈ rest := by
                    rcases List.mem_cons.mp hc2.2 with hx | hx
                    · exact absurd hx hbk
                    · exact hx
                  exact absurd ⟨(hcongr b hbr).symm ▸ hc2.1, hbr⟩ hc
                · rfl
          · refine List.Forall₂.cons ?_ ihf
            rw [ihs key]
            split
            · rename_i hc
              exact absurd hc.2 hkey
            · exact alookup_ainsert_self _ _ _
      · rw [if_neg hcond] at h
        cases hrec2 : buildBindings env dn di s rest with
        | none => rw [hrec2] at h; simp at h
        | some t =>
          rcases t with ⟨out2, s3, calls2⟩
          rw [hrec2] at h
          simp only [Option.some.injEq, Prod.mk.injEq] at h
          obtain ⟨h1, h2, h3⟩ := h
          subst h1 h2 h3
          obtain ⟨ihc, ihs, ihf⟩ := ih hrec2 hndr
          refine ⟨?_, ?_, ?_⟩
          · rw [List.filter_cons, if_neg (by rw [hnc]; exact hcond)]
            simpa using ihc
          · intro b
            rw [ihs b]
            by_cases hbk : b = key
            · subst hbk
              split
              · rename_i hc
                exact absurd hc.2 hkey
              · split
                · rename_i hc2
                  exact absurd (hnc ▸ hc2.1) hcond
                · rfl
            · split
              · rename_i hc
                split
                · rfl
                · rename_i hc2
                  exact absurd ⟨hc.1, List.mem_cons_of_mem _ hc.2⟩ hc2
              · rename_i hc
                split
                · rename_i hc2
                  have hbr : b ∈ rest := by
                    rcases List.mem_cons.mp hc2.2 with hx | hx
                    · exact absurd hx hbk
                    · exact hx
                  exact absurd ⟨hc2.1, hbr⟩ hc
                · rfl
          · refine List.Forall₂.cons ?_ ihf
            rw [ihs key]
            split
            · rename_i hc
              exact absurd hc.2 hkey
            · exact hk

theorem forall₂_imp_mem {α β : Type} {R S : α → β → Prop} :
    ∀ {l1 : List α} {l2 : List β}, List.Forall₂ R l1 l2 →
    (∀ a b, b ∈ l2 → R a b → S a b) → List.Forall₂ S l1 l2 := by
  intro l1 l2 h
  induction h with
  | nil => intro _; exact List.Forall₂.nil
  | cons hab hrest ih =>
    intro himp
    refine List.Forall₂.cons (himp _ _ (by simp) hab) ?_
    exact ih fun a b hb hr => himp a b (List.mem_cons_of_mem _ hb) hr

theorem buildPolicyData_char {env : Env} {s0 : PState}
    {l : List (namespacedName × DefinitionInfo)} {sIter s2 : PState}
    {res : List PolicyData} {calls : List CompileCall}
    (h : buildPolicyData env sIter l = some (res, s2, calls))
    (hIdx : sIter.definitionsToBindings = s0.definitionsToBindings)
    (hRecs : ∀ e ∈ l, ∀ b ∈ (alookup s0.definitionsToBindings e.1).getD [],
      alookup sIter.bindingInfos b = alookup s0.bindingInfos b)
    (hlkeys : (l.map Prod.fst).Nodup)
    (hdisj : ∀ e1 ∈ l, ∀ e2 ∈ l, e1.1 ≠ e2.1 →
      ∀ b ∈ (alookup s0.definitionsToBindings e1.1).getD [],
        b ∉ (alookup s0.definitionsToBindings e2.1).getD [])
    (hnds : ∀ e ∈ l, ((alookup s0.definitionsToBindings e.1).getD []).Nodup) :
    calls = l.flatMap (fun e =>
      (((alookup s0.definitionsToBindings e.1).getD []).filter
        (needsCompile s0 e.2)).map
        (fun b => { definitionName := e.1, bindingName := b,
                    arg := e.2.lastReconciledValue })) ∧
    List.Forall₂ (fun pd e => pd.definitionInfo = e.2 ∧
      (e.2.configurationError ≠ none →
        List.Forall₂ (fun bi b => alookup s0.bindingInfos b = some bi)
          pd.bindings ((alookup s0.definitionsToBindings e.1).getD []))) res l := by
  induction l generalizing sIter s2 res calls with
  | nil =>
    simp only [buildPolicyData, Option.some.injEq, Prod.mk.injEq] at h
    obtain ⟨h1, h2, h3⟩ := h
    subst h1 h3
    exact ⟨rfl, List.Forall₂.nil⟩
  | cons e rest ih =>
    rcases e with ⟨dn, di⟩
    rw [List.map_cons, List.nodup_cons] at hlkeys
    simp only [buildPolicyData] at h
    rw [hIdx] at h
    cases hbb : buildBindings env dn di sIter
        ((alookup s0.definitionsToBindings dn).getD []) with
    | none => rw [hbb] at h; simp at h
    | some t =>
      rcases t with ⟨out, s3, calls1⟩
      rw [hbb] at h
      dsimp only at h
      cases hlv : di.lastReconciledValue with
      | none => rw [hlv] at h; simp at h
      | some lastVal =>
        rw [hlv] at h
        cases hrec : buildPolicyData env s3 rest with
        | none => simp only [hrec] at h; simp at h
        | some t2 =>
          rcases t2 with ⟨res2, s4, calls2⟩
          simp only [hrec, Option.some.injEq, Prod.mk.injEq] at h
          obtain ⟨h1, h2, h3⟩ := h
          subst h1 h2 h3
          obtain ⟨bcalls, bstate, bout⟩ :=
            buildBindings_char hbb (hnds (dn, di) (by simp))
          have hcongr : ∀ b ∈ (alookup s0.definitionsToBindings dn).getD [],
              needsCompile sIter di b = needsCompile s0 di b := by
            intro b hb
            simp only [needsCompile]
            rw [hRecs (dn, di) (by simp) b hb]
          have hfrb := buildBindings_frame hbb
          have hIdx3 : s3.definitionsToBindings = s0.definitionsToBindings :=
            hfrb.2.2.2.1.trans hIdx
          have hRecs3 : ∀ e ∈ rest, ∀ b ∈ (alookup s0.definitionsToBindings e.1).getD [],
              alookup s3.bindingInfos b = alookup s0.bindingInfos b := by
            intro e he b hb
            have hne : e.1 ≠ dn := by
              intro hc
              have hmm := List.mem_map_of_mem Prod.fst he
              rw [hc] at hmm
              exact hlkeys.1 hmm
            have hnotin : b ∉ (alookup s0.definitionsToBindings dn).getD [] :=
              hdisj e (List.mem_cons_of_mem _ he) (dn, di) (by simp) hne b hb
            rw [bstate b]
            rw [if_neg (fun hc => hnotin hc.2)]
            exact hRecs e (List.mem_cons_of_mem _ he) b hb
          obtain ⟨ihc, ihf⟩ := ih hrec hIdx3 hRecs3 hlkeys.2
            (fun e1 he1 e2 he2 => hdisj e1 (List.mem_cons_of_mem _ he1) e2
              (List.mem_cons_of_mem _ he2))
            (fun e he => hnds e (List.mem_cons_of_mem _ he))
          refine ⟨?_, ?_⟩
          · rw [List.flatMap_cons, ihc, bcalls, List.filter_congr hcongr]
          · refine List.Forall₂.cons ⟨rfl, ?_⟩ ihf
            intro herr
            have hncfalse : ∀ b ∈ (alookup s0.definitionsToBindings dn).getD [],
                needsCompile sIter di b = false := by
              intro b hb
              simp only [needsCompile]
              have : di.configurationError.isNone = false := by
                cases hce : di.configurationError with
                | none => exact absurd hce herr
                | some x => rfl
              rw [this, Bool.and_false]
            refine forall₂_imp_mem bout ?_
            intro bi b hb hr
            rw [← hr, bstate b, if_neg ?_]
            · exact (hRecs (dn, di) (by simp) b hb).symm
            · intro hc
              rw [hncfalse b hb] at hc
              exact Bool.false_ne_true hc.1

theorem alookup_of_mem_nodup {κ ν : Type} [DecidableEq κ]
    {l : List (κ × ν)} {k : κ} {v : ν}
    (h : (k, v) ∈ l) (hnd : (l.map Prod.fst).Nodup) : alookup l k = some v := by
  induction l with
  | nil => simp at h
  | cons e rest ih =>
    rcases e with ⟨ek, ev⟩
    rw [List.map_cons, List.nodup_cons] at hnd
    rcases List.mem_cons.mp h with h | h
    · cases h
      simp [alookup]
    · have hek : ek ≠ k := by
        intro hc
        subst hc
        have hmm := List.mem_map_of_mem Prod.fst h
        exact hnd.1 hmm
      simp only [alookup, hek, if_false]
      exact ih h hnd.2

/-- C3: during a rebuild, the compilation service is invoked exactly for
the bindings whose validator slot is absent and whose definition has no
configuration error; definitions with a configuration error never trigger
compilation for their dependent bindings, and those bindings' records are
copied unchanged into the returned snapshot, so their validator slots
remain absent (controller_reconcile.go:354-362). -/
theorem c3_compile_skipped_iff_configuration_error
    (env : Env) (s : PState) (res : List PolicyData) (s' : PState)
    (calls : List CompileCall)
    (h : latestPolicyData env s = some (res, s', calls))
    (hcached : s.cachedPolicies = none)
    (hkeys : (s.definitionInfo.map Prod.fst).Nodup)
    (hdisj : depsDisjoint s)
    (hsets : ∀ e ∈ s.definitionsToBindings, e.2.Nodup) :
    (∀ c ∈ calls, ∃ dInfo, alookup s.definitionInfo c.definitionName = some dInfo ∧
      dInfo.configurationError = none ∧ c.arg = dInfo.lastReconciledValue ∧
      c.bindingName ∈ (alookup s.definitionsToBindings c.definitionName).getD [] ∧
      ∃ bi, alookup s.bindingInfos c.bindingName = some bi ∧ bi.validator = none) ∧
    (∀ k dInfo, alookup s.definitionInfo k = some dInfo →
      dInfo.configurationError = none →
      ∀ b ∈ (alookup s.definitionsToBindings k).getD [],
      ∀ bi, alookup s.bindingInfos b = some bi → bi.validator = none →
      ∃ c ∈ calls, c.definitionName = k ∧ c.bindingName = b) ∧
    List.Forall₂ (fun pd e => pd.definitionInfo = e.2 ∧
      (e.2.configurationError ≠ none →
        List.Forall₂ (fun bi b => alookup s.bindingInfos b = some bi)
          pd.bindings ((alookup s.definitionsToBindings e.1).getD []))) res
      s.definitionInfo := by
  unfold latestPolicyData at h
  rw [hcached] at h
  cases hb : buildPolicyData env s s.definitionInfo with
  | none => rw [hb] at h; simp at h
  | some t =>
    rcases t with ⟨res0, s2, calls0⟩
    rw [hb] at h
    simp only [Option.some.injEq, Prod.mk.injEq] at h
    obtain ⟨h1, h2, h3⟩ := h
    subst h1 h3
    have hdisj2 : ∀ e1 ∈ s.definitionInfo, ∀ e2 ∈ s.definitionInfo, e1.1 ≠ e2.1 →
        ∀ b ∈ (alookup s.definitionsToBindings e1.1).getD [],
          b ∉ (alookup s.definitionsToBindings e2.1).getD [] := by
      intro e1 _ e2 _ hne b hb1 hb2
      cases hl1 : alookup s.definitionsToBindings e1.1 with
      | none => rw [hl1] at hb1; simp at hb1
      | some dep1 =>
        cases hl2 : alookup s.definitionsToBindings e2.1 with
        | none => rw [hl2] at hb2; simp at hb2
        | some dep2 =>
          rw [hl1] at hb1
          rw [hl2] at hb2
          exact hdisj (e1.1, dep1) (alookup_eq_some_mem hl1)
            (e2.1, dep2) (alookup_eq_some_mem hl2) hne b hb1 hb2
    have hnds2 : ∀ e ∈ s.definitionInfo,
        ((alookup s.definitionsToBindings e.1).getD []).Nodup := by
      intro e _
      cases hl : alookup s.definitionsToBindings e.1 with
      | none => simp
      | some dep => simpa using hsets (e.1, dep) (alookup_eq_some_mem hl)
    obtain ⟨hcalls, hres⟩ := buildPolicyData_char hb rfl
      (fun _ _ _ _ => rfl) hkeys hdisj2 hnds2
    refine ⟨?_, ?_, hres⟩
    · intro c hc
      rw [hcalls] at hc
      obtain ⟨e, he, hc2⟩ := List.mem_flatMap.mp hc
      obtain ⟨b, hbf, hceq⟩ := List.mem_map.mp hc2
      obtain ⟨hbmem, hbnc⟩ := List.mem_filter.mp hbf
      subst hceq
      obtain ⟨hval, herr⟩ := Bool.and_eq_true_iff.mp hbnc
      refine ⟨e.2, alookup_of_mem_nodup (by cases e; exact he) hkeys, ?_, rfl, hbmem, ?_⟩
      · cases hce : e.2.configurationError with
        | none => rfl
        | some x => rw [hce] at herr; simp at herr
      · cases hbl : alookup s.bindingInfos b with
        | none => rw [hbl] at hval; simp at hval
        | some bi =>
          rw [hbl] at hval
          exact ⟨bi, rfl, Option.isNone_iff_eq_none.mp hval⟩
    · intro k dInfo hkd herr b hbmem bi hbi hbv
      rw [hcalls]
      refine ⟨{ definitionName := k, bindingName := b,
                arg := dInfo.lastReconciledValue }, ?_, rfl, rfl⟩
      refine List.mem_flatMap.mpr ⟨(k, dInfo), alookup_eq_some_mem hkd, ?_⟩
      refine List.mem_map.mpr ⟨b, ?_, rfl⟩
      refine List.mem_filter.mpr ⟨hbmem, ?_⟩
      simp only [needsCompile, hbi, hbv, herr]
      rfl

/-- Witness for C3 at a concrete input: broken `policy-E` (configuration
error) with `binding-2`, healthy `policy-A` with `binding-1`; the rebuild
compiles only `binding-1`. -/
theorem c3_compile_skipped_iff_configuration_error_witness :
    latestPolicyData env0 c3s =
      some (((latestPolicyData env0 c3s).getD ([], emptyPState, [])).1,
            ((latestPolicyData env0 c3s).getD ([], emptyPState, [])).2.1,
            ((latestPolicyData env0 c3s).getD ([], emptyPState, [])).2.2) ∧
    c3s.cachedPolicies = none ∧
    depsDisjoint c3s ∧
    (∀ c ∈ ((latestPolicyData env0 c3s).getD ([], emptyPState, [])).2.2,
      ∃ dInfo, alookup c3s.definitionInfo c.definitionName = some dInfo ∧
        dInfo.configurationError = none ∧ c.arg = dInfo.lastReconciledValue ∧
        c.bindingName ∈ (alookup c3s.definitionsToBindings c.definitionName).getD [] ∧
        ∃ bi, alookup c3s.bindingInfos c.bindingName = some bi ∧ bi.validator = none) :=
  ⟨by decide, by decide, by unfold depsDisjoint; decide,
   (c3_compile_skipped_iff_configuration_error env0 c3s
     ((latestPolicyData env0 c3s).getD ([], emptyPState, [])).1
     ((latestPolicyData env0 c3s).getD ([], emptyPState, [])).2.1
     ((latestPolicyData env0 c3s).getD ([], emptyPState, [])).2.2
     (by decide) (by decide) (by decide) (by unfold depsDisjoint; decide)
     (by decide)).1⟩
